import Mathlib

/-!
Verification of the llmproxy Request Capture and Replay Engine.

Shallow embedding, in Lean 4, of the core data model and operations of the
`llmproxy-go` repository (a transparent reverse proxy for LLM provider APIs
with request capture, caching and tape replay), together with proofs that
settle the specification claims about:

* the request record / tape payload data model (`types.go`, `tape.go`);
* the cache key normalizer and the in-memory TTL cache (`cache.go`);
* the tape loader, timeline and playback clock (`tape.go`);
* the finalize protocol of the proxy handler (`proxy.go`).

Modelling conventions, used throughout:

* Go `time.Time` and `time.Duration` are modelled as `Int` (nanoseconds since
  the epoch, exactly the resolution Go uses); `t.Before u` is `t < u`,
  `t.After u` is `u < t`, and the `time.Time` zero value is `0`.
* Go `[]byte` is modelled as `List Nat` (byte values); Go `map[string][]string`
  header maps are modelled as association lists `List (String × List String)`
  (the code only ever copies these maps wholesale, so iteration order never
  matters for the claims below).
* Go `float64` cost values are only ever copied, never computed with, in the
  code under verification, so `Cost` is modelled as `Int` (an opaque amount).
* Fallible operations return `Option`; library JSON (un)marshalling of tape
  lines is a parameter of the tape model (a `TapeDecoders` record), so every
  tape theorem is universally quantified over the behaviour of the decoder.
-/

namespace LLMProxy

/-- Go `time.Time`, as nanoseconds since the epoch (`0` is the zero value). -/
abbrev GoTime := Int

/-- Go `time.Duration`, in nanoseconds. -/
abbrev GoDuration := Int

/-- Go `[]byte`. -/
abbrev GoBytes := List Nat

/-- Go `map[string][]string` (HTTP headers); only ever copied wholesale. -/
abbrev GoHeaders := List (String × List String)

/-- The `RequestStatus` from `types.go`: `StatusPending | StatusComplete | StatusError`. -/
inductive RequestStatus where
  | pending
  | complete
  | error
  deriving DecidableEq, Repr

/-- The `LLMRequest` from `types.go` (the Request Record): one per captured
exchange.  Field for field the Go struct, under the conventions above. -/
structure LLMRequest where
  ID : Nat
  Method : String
  Path : String
  Host : String
  URL : String
  Model : String
  Status : RequestStatus
  StatusCode : Nat
  StartTime : GoTime
  Duration : GoDuration
  TTFT : GoDuration
  RequestHeaders : GoHeaders
  ResponseHeaders : GoHeaders
  RequestBody : GoBytes
  ResponseBody : GoBytes
  RequestSize : Nat
  ResponseSize : Nat
  IsStreaming : Bool
  EstimatedInputTokens : Nat
  InputTokens : Nat
  OutputTokens : Nat
  ProviderID : String
  Cost : Int
  CachedResponse : Bool
  ProxyName : String
  ProxyListen : String
  deriving DecidableEq, Repr

/-- The `TapeRequestData` from `tape.go`: the payload written to the tape for
`request_start` / `request_update` / `request_complete` events.  Note that the
Go struct has *no* fields for TTFT, the cache-hit flag (`CachedResponse`) or
the owning proxy (`ProxyName` / `ProxyListen`). -/
structure TapeRequestData where
  ID : Nat
  Method : String
  Path : String
  Host : String
  URL : String
  Model : String
  Status : RequestStatus
  StatusCode : Nat
  StartTime : GoTime
  Duration : GoDuration
  RequestHeaders : GoHeaders
  ResponseHeaders : GoHeaders
  RequestBody : GoBytes
  ResponseBody : GoBytes
  RequestSize : Nat
  ResponseSize : Nat
  IsStreaming : Bool
  EstimatedInputTokens : Nat
  InputTokens : Nat
  OutputTokens : Nat
  ProviderID : String
  Cost : Int
  deriving DecidableEq, Repr

/-- The `requestToTapeData` from `tape.go`: converts an `LLMRequest` to the tape
payload, copying exactly the fields the payload struct has. -/
def requestToTapeData (req : LLMRequest) : TapeRequestData :=
  { ID := req.ID
    Method := req.Method
    Path := req.Path
    Host := req.Host
    URL := req.URL
    Model := req.Model
    Status := req.Status
    StatusCode := req.StatusCode
    StartTime := req.StartTime
    Duration := req.Duration
    RequestHeaders := req.RequestHeaders
    ResponseHeaders := req.ResponseHeaders
    RequestBody := req.RequestBody
    ResponseBody := req.ResponseBody
    RequestSize := req.RequestSize
    ResponseSize := req.ResponseSize
    IsStreaming := req.IsStreaming
    EstimatedInputTokens := req.EstimatedInputTokens
    InputTokens := req.InputTokens
    OutputTokens := req.OutputTokens
    ProviderID := req.ProviderID
    Cost := req.Cost }

/-- The `tapeDataToRequest` from `tape.go`: rebuilds an `LLMRequest` from a tape
payload.  Fields absent from `TapeRequestData` come out as Go zero values. -/
def tapeDataToRequest (data : TapeRequestData) : LLMRequest :=
  { ID := data.ID
    Method := data.Method
    Path := data.Path
    Host := data.Host
    URL := data.URL
    Model := data.Model
    Status := data.Status
    StatusCode := data.StatusCode
    StartTime := data.StartTime
    Duration := data.Duration
    TTFT := 0
    RequestHeaders := data.RequestHeaders
    ResponseHeaders := data.ResponseHeaders
    RequestBody := data.RequestBody
    ResponseBody := data.ResponseBody
    RequestSize := data.RequestSize
    ResponseSize := data.ResponseSize
    IsStreaming := data.IsStreaming
    EstimatedInputTokens := data.EstimatedInputTokens
    InputTokens := data.InputTokens
    OutputTokens := data.OutputTokens
    ProviderID := data.ProviderID
    Cost := data.Cost
    CachedResponse := false
    ProxyName := ""
    ProxyListen := "" }

/-! ## Cache store (`cache.go`) -/

/-- The `CacheEntry` from `cache.go`: immutable snapshot of a cached response. -/
structure CacheEntry where
  ResponseBody : GoBytes
  ResponseHeaders : GoHeaders
  StatusCode : Nat
  Duration : GoDuration
  CreatedAt : GoTime
  deriving DecidableEq, Repr

/-- The `memoryCacheEntry` from `cache.go`: a cache entry plus its absolute expiry. -/
structure memoryCacheEntry where
  entry : CacheEntry
  expiresAt : GoTime
  deriving DecidableEq, Repr

/-- The `MemoryCache` from `cache.go`: the in-memory TTL cache.  The `sync.Map`
is modelled as an association list keyed by the cache key; `ttl` is the
configured time-to-live.  (The background sweep goroutine only removes
entries that `Get` would also treat as expired, so it is irrelevant to the
round-trip claim and not part of the sequential model.) -/
structure MemoryCache where
  data : List (String × memoryCacheEntry)
  ttl : GoDuration
  deriving DecidableEq, Repr

/-- Association-list store with replace semantics (Go map `Store`). -/
def assocStore (k : String) (v : memoryCacheEntry) :
    List (String × memoryCacheEntry) → List (String × memoryCacheEntry)
  | [] => [(k, v)]
  | (k', v') :: rest =>
      if k' = k then (k, v) :: rest else (k', v') :: assocStore k v rest

/-- Association-list delete (Go map `Delete`). -/
def assocDelete (k : String) :
    List (String × memoryCacheEntry) → List (String × memoryCacheEntry)
  | [] => []
  | (k', v') :: rest =>
      if k' = k then rest else (k', v') :: assocDelete k rest

/-- Association-list lookup (Go map `Load`). -/
def assocLoad (k : String) :
    List (String × memoryCacheEntry) → Option memoryCacheEntry
  | [] => none
  | (k', v') :: rest => if k' = k then some v' else assocLoad k rest

/-- The `MemoryCache.Set` from `cache.go`: stores the entry with absolute expiry
`now + ttl` (`time.Now().Add(c.ttl)`); `now` is the current wall-clock time,
passed explicitly. -/
def MemoryCache.Set (c : MemoryCache) (now : GoTime) (key : String)
    (entry : CacheEntry) : MemoryCache :=
  { c with data := assocStore key { entry := entry, expiresAt := now + c.ttl } c.data }

/-- The `MemoryCache.Get` from `cache.go`: a miss if the key is absent; if the
entry has expired (`time.Now().After(entry.expiresAt)`, i.e. `expiresAt < now`)
it is lazily deleted and a miss is returned; otherwise a hit.  Returns the
result together with the (possibly updated) cache state. -/
def MemoryCache.Get (c : MemoryCache) (now : GoTime) (key : String) :
    Option CacheEntry × MemoryCache :=
  match assocLoad key c.data with
  | none => (none, c)
  | some e =>
      if e.expiresAt < now then
        (none, { c with data := assocDelete key c.data })
      else
        (some e.entry, c)

/-! ## Sorting (`sort.Slice`)

`sort.Slice(x, less)` reorders `x` so that afterwards `¬ less x[j] x[i]`
holds for all `i < j` (for a strict order `less` this means: sorted, up to
ties).  The Go library sort is unstable; the claims below depend only on the
ordering postcondition, which any correct sort satisfies, so `sort.Slice` is
modelled by insertion sort. -/

/-- Insert `x` into `l` before the first element `y` with `less x y`. -/
def sortInsert (less : α → α → Bool) (x : α) : List α → List α
  | [] => [x]
  | y :: ys => bif less x y then x :: y :: ys else y :: sortInsert less x ys

/-- Model of Go `sort.Slice`: sort `l` by the strict comparison `less`. -/
def sortSlice (less : α → α → Bool) : List α → List α
  | [] => []
  | x :: xs => sortInsert less x (sortSlice less xs)

/-! ## Tape data model (`tape.go`) -/

/-- The `TapeEvent` from `tape.go`.  `Type` is a Go string constant
(`session_start` … `session_end`); `Data` is the raw JSON payload
(`json.RawMessage`), kept as uninterpreted text. -/
structure TapeEvent where
  Timestamp : GoTime
  EventType : String
  Sequence : Nat
  Data : String
  deriving DecidableEq, Repr

/-- The `TapeSessionData` from `tape.go`. -/
structure TapeSessionData where
  ListenAddr : String
  TargetURL : String
  StartTime : GoTime
  Version : String
  deriving DecidableEq, Repr

/-- The `TimelineEntry` from `tape.go`.  `Event` is a `*TapeEvent` (nil modelled
as `none`; `LoadTape` always stores the event it just appended).  The Go
`Request *LLMRequest` field aliases the entry of `Tape.RequestMap` with the
request's ID — the pointer is modelled by that ID key. -/
structure TimelineEntry where
  Time : GoTime
  Event : Option TapeEvent
  RequestId : Nat
  deriving DecidableEq, Repr

/-- The `Tape` from `tape.go`.  `RequestMap` (a Go `map[int]*LLMRequest`) is an
association list from request ID to the latest reconstructed record. -/
structure Tape where
  FilePath : String
  Session : TapeSessionData
  Events : List TapeEvent
  Requests : List LLMRequest
  RequestMap : List (Nat × LLMRequest)
  Timeline : List TimelineEntry
  CurrentTime : GoTime
  StartTime : GoTime
  EndTime : GoTime
  Duration : GoDuration
  deriving DecidableEq, Repr

/-- The behaviour of the library JSON decoder (`encoding/json`) on the three
shapes the tape loader unmarshals: a log line into a `TapeEvent`, and an
event's `Data` payload into session or request data.  Every tape theorem is
universally quantified over these functions, so it holds for any decoder
behaviour. -/
structure TapeDecoders where
  decodeEvent : String → Option TapeEvent
  decodeSession : String → Option TapeSessionData
  decodeRequest : String → Option TapeRequestData

/-- Association-list lookup for `map[int]*LLMRequest` (Go map index). -/
def reqLookup (k : Nat) : List (Nat × LLMRequest) → Option LLMRequest
  | [] => none
  | (k', v) :: rest => if k' = k then some v else reqLookup k rest

/-- Association-list store for `map[int]*LLMRequest` (replace or append). -/
def reqStore (k : Nat) (v : LLMRequest) :
    List (Nat × LLMRequest) → List (Nat × LLMRequest)
  | [] => [(k, v)]
  | (k', v') :: rest =>
      if k' = k then (k, v) :: rest else (k', v') :: reqStore k v rest

/-- Intermediate state of the `LoadTape` scan loop: the fields of the `Tape`
under construction.  `requestOrder` is the order in which `Requests` was
appended to (first sighting of each ID); the Go slice holds pointers into
`RequestMap`, so the final `Requests` list is assembled from `requestOrder`
and `requestMap` after the scan. -/
structure LoadState where
  events : List TapeEvent
  session : TapeSessionData
  startTime : GoTime
  endTime : GoTime
  requestOrder : List Nat
  requestMap : List (Nat × LLMRequest)
  timeline : List TimelineEntry

/-- The zero-valued `Tape` that `LoadTape` starts from. -/
def initLoadState : LoadState :=
  { events := [], session := ⟨"", "", 0, ""⟩, startTime := 0, endTime := 0,
    requestOrder := [], requestMap := [], timeline := [] }

/-- One iteration of the `LoadTape` scan loop (`tape.go`): decode the line
(skipping it on failure), append the event, then dispatch on the event type.
`request_*` events decode the payload (ignored on failure), update or create
the request record, and append a timeline entry pointing at the event and the
record. -/
def processLine (dec : TapeDecoders) (st : LoadState) (line : String) : LoadState :=
  match dec.decodeEvent line with
  | none => st
  | some event =>
    let st := { st with events := st.events ++ [event] }
    if event.EventType = "session_start" then
      match dec.decodeSession event.Data with
      | some sessionData =>
          { st with session := sessionData, startTime := sessionData.StartTime }
      | none => st
    else if event.EventType = "request_start" ∨ event.EventType = "request_update" ∨
        event.EventType = "request_complete" then
      match dec.decodeRequest event.Data with
      | some reqData =>
          let st :=
            match reqLookup reqData.ID st.requestMap with
            | some _ =>
                { st with requestMap :=
                    reqStore reqData.ID (tapeDataToRequest reqData) st.requestMap }
            | none =>
                { st with
                    requestOrder := st.requestOrder ++ [reqData.ID],
                    requestMap :=
                      reqStore reqData.ID (tapeDataToRequest reqData) st.requestMap }
          { st with timeline := st.timeline ++
              [{ Time := event.Timestamp, Event := some event, RequestId := reqData.ID }] }
      | none => st
    else if event.EventType = "session_end" then
      { st with endTime := event.Timestamp }
    else st

/-- The `LoadTape` from `tape.go`, over the lines of the tape file (the
`bufio.Scanner` is modelled by the line list; scanner I/O failure, the only
error path after opening, is outside the model).  After the scan: compute the
end time and duration, sort `Requests` by ID and `Timeline` by time, and set
`CurrentTime` to the tape start. -/
def LoadTape (dec : TapeDecoders) (filename : String) (lines : List String) : Tape :=
  let st := lines.foldl (processLine dec) initLoadState
  let requests := st.requestOrder.filterMap (fun id => reqLookup id st.requestMap)
  let endTime :=
    if st.endTime ≠ 0 ∧ st.startTime ≠ 0 then st.endTime
    else match st.timeline.getLast? with
      | some entry => entry.Time
      | none => st.endTime
  let duration :=
    if st.endTime ≠ 0 ∧ st.startTime ≠ 0 then st.endTime - st.startTime
    else match st.timeline.getLast? with
      | some entry => entry.Time - st.startTime
      | none => 0
  { FilePath := filename
    Session := st.session
    Events := st.events
    Requests := sortSlice (fun a b => decide (a.ID < b.ID)) requests
    RequestMap := st.requestMap
    Timeline := sortSlice (fun a b => decide (a.Time < b.Time)) st.timeline
    CurrentTime := st.startTime
    StartTime := st.startTime
    EndTime := endTime
    Duration := duration }

/-! ## Playback clock (`tape.go`) -/

/-- The per-entry step of the replay fold in `GetRequestsAtTime`: if the
entry carries an event whose payload decodes, the decoded record overwrites
the state map at its ID (`requestStates[req.ID] = req`). -/
def replayStep (dec : TapeDecoders) (m : List (Nat × LLMRequest))
    (entry : TimelineEntry) : List (Nat × LLMRequest) :=
  match entry.Event with
  | none => m
  | some ev =>
      match dec.decodeRequest ev.Data with
      | none => m
      | some reqData => reqStore reqData.ID (tapeDataToRequest reqData) m

/-- The `Tape.GetRequestsAtTime` from `tape.go`: fold every timeline entry up to
the first one strictly after `targetTime` (the loop `break`s there) into a
fresh state map, then return the reconstructed requests sorted by ID.
(Iterating the Go map yields the entries in unspecified order; since IDs are
unique in the map, the sort by ID makes the result order-independent, and the
map is modelled by the association list in insertion order.) -/
def Tape.GetRequestsAtTime (dec : TapeDecoders) (t : Tape) (targetTime : GoTime) :
    List LLMRequest :=
  sortSlice (fun a b => decide (a.ID < b.ID))
    (((t.Timeline.takeWhile (fun entry => decide (¬ targetTime < entry.Time))).foldl
        (replayStep dec) []).map Prod.snd)

/-- The `Tape.GetRequestsAtTime` as a state transformer on the tape, the
embedding style used for the mutating clock operations: the method body reads
`t.Timeline` and builds its result and state map in fresh locals, and assigns
to no field of the receiver, so the resulting tape is the input tape. -/
def Tape.GetRequestsAtTimeST (dec : TapeDecoders) (t : Tape) (targetTime : GoTime) :
    List LLMRequest × Tape :=
  (sortSlice (fun a b => decide (a.ID < b.ID))
    (((t.Timeline.takeWhile (fun entry => decide (¬ targetTime < entry.Time))).foldl
        (replayStep dec) []).map Prod.snd), t)

/-- The record a timeline entry contributes to the replay fold: the entry's
event payload decoded as request data (if the entry has an event and the
payload decodes), rebuilt into an `LLMRequest`. -/
def decodeEntry (dec : TapeDecoders) (entry : TimelineEntry) : Option LLMRequest :=
  match entry.Event with
  | none => none
  | some ev =>
      match dec.decodeRequest ev.Data with
      | none => none
      | some reqData => some (tapeDataToRequest reqData)

/-- The chronological list of records contributing to
`GetRequestsAtTime dec t x`: the decoded snapshots of the timeline prefix up
to the first entry strictly after `x`. -/
def contribsUpTo (dec : TapeDecoders) (t : Tape) (x : GoTime) : List LLMRequest :=
  (t.Timeline.takeWhile (fun entry => decide (¬ x < entry.Time))).filterMap
    (decodeEntry dec)

/-- The record `GetRequestsAtTime dec t x` shows for a given request ID, if
any (the result list holds at most one record per ID). -/
def requestShownAt (dec : TapeDecoders) (t : Tape) (x : GoTime) (id : Nat) :
    Option LLMRequest :=
  (Tape.GetRequestsAtTime dec t x).find? (fun r => decide (r.ID = id))

/-- Left-biased choice on `Option` (used to express "last write wins"). -/
def optOr (a b : Option α) : Option α :=
  match a with
  | some x => some x
  | none => b

/-- The last record with the given ID in a chronological contribution list —
"last write per ID wins". -/
def lastWith (id : Nat) (rs : List LLMRequest) : Option LLMRequest :=
  rs.reverse.find? (fun r => decide (r.ID = id))

/-- The `Tape.StepForward` from `tape.go`: scan the timeline for the first entry
with `entry.Time.After(t.CurrentTime)`; move `CurrentTime` to its time and
return `i < len(t.Timeline)-1` (the scan index `i` is the number of entries
skipped, so the returned flag says exactly whether further entries follow the
one stepped to); if the scan finds nothing, return `false`. -/
def Tape.StepForward (t : Tape) : Bool × Tape :=
  match t.Timeline.dropWhile (fun entry => decide (entry.Time ≤ t.CurrentTime)) with
  | [] => (false, t)
  | entry :: rest => (decide (rest ≠ []), { t with CurrentTime := entry.Time })

/-- The `Tape.StepBackward` from `tape.go`: walk the timeline keeping the last
entry seen with `Time.Before(t.CurrentTime)`, `break`ing at the first entry
that is not (hence the `takeWhile`); if one was found, move `CurrentTime`
to its time and return `true`, else return `false`. -/
def Tape.StepBackward (t : Tape) : Bool × Tape :=
  match (t.Timeline.takeWhile (fun entry => decide (entry.Time < t.CurrentTime))).getLast? with
  | some entry => (true, { t with CurrentTime := entry.Time })
  | none => (false, t)

/-! ## Finalize protocol of the proxy handler (`proxy.go`)

The handler body of `createProxyHandler` (after the Request Record is
created in `Pending` state) is embedded as a labelled transition system over
an explicit state, one concurrent task per Go goroutine:

* the *main* task: on a cache hit it writes the cached response, runs
  `close(cancelDone)` and calls `finalize(cachedEntry.StatusCode, …)`; on a
  cache miss it runs `proxy.ServeHTTP` (a suspension point), then
  `close(cancelDone)`, then checks `r.Context().Err()` — returning *without
  finalizing* when the context is cancelled, else calling
  `finalize(recorder.statusCode, …)`;
* the *disconnect watcher* goroutine: `select` over `r.Context().Done()`
  (firing `finalize(499, nil, nil, 0)`) and `cancelDone` (exiting without
  finalizing); when both channels are ready Go picks either branch, which the
  model exposes as two separately schedulable steps;
* the *environment*: the client may cancel the inbound context at any time.

`finalize` itself is the Go closure guarded by `finalizeOnce sync.Once`
(`sync.Once` serialises the body, so the call is one atomic step).  A
schedule (list of step labels) resolves the nondeterminism; theorems
quantify over all schedules, counterexample traces use the strict runner
that fails on a disabled step. -/

/-- Which call site fired the `finalize` closure body. -/
inductive FinalizeCaller where
  | watcher
  | mainCacheHit
  | mainUpstream
  deriving DecidableEq, Repr

/-- Per-request data fixed before the race: the streaming flag, the
cache-bypass flag, whether the cache lookup hit, and the cached/upstream
response data the two finalize call sites would pass. -/
structure HandlerConfig where
  isStreaming : Bool
  skipCache : Bool
  cacheHit : Bool
  cachedStatus : Nat
  cachedBody : GoBytes
  cachedHeaders : GoHeaders
  upstreamStatus : Nat
  upstreamBody : GoBytes
  upstreamHeaders : GoHeaders
  upstreamRawSize : Nat
  deriving DecidableEq, Repr

/-- Program counter of the handler's main task. -/
inductive MainPC where
  | start
  | served
  | closed
  | returned
  deriving DecidableEq, Repr

/-- State shared by the handler tasks: the Request Record fields `finalize`
writes, the `sync.Once` latch, counters for the side effects (cache writes,
`request_complete` tape events, token-extraction goroutines, observer
notifications), the context/channel flags and the two tasks' control state. -/
structure HandlerState where
  status : RequestStatus
  statusCode : Nat
  responseHeaders : Option GoHeaders
  responseBody : GoBytes
  responseSize : Nat
  durationSet : Bool
  finalizeCount : Nat
  finalizedBy : Option FinalizeCaller
  onceFired : Bool
  cacheWrites : Nat
  tapeCompletes : Nat
  tokenExtracts : Nat
  notifies : Nat
  ctxCancelled : Bool
  cancelDoneClosed : Bool
  watcherDone : Bool
  mainPC : MainPC
  deriving DecidableEq, Repr

/-- The state right after the Request Record is created `Pending` and the
watcher goroutine is started (proxy.go: record creation precedes the
`finalize` definition and the `cancelDone` goroutine). -/
def initHandlerState : HandlerState :=
  { status := .pending, statusCode := 0, responseHeaders := none,
    responseBody := [], responseSize := 0, durationSet := false,
    finalizeCount := 0, finalizedBy := none, onceFired := false,
    cacheWrites := 0, tapeCompletes := 0, tokenExtracts := 0, notifies := 0,
    ctxCancelled := false, cancelDoneClosed := false, watcherDone := false,
    mainPC := .start }

/-- The `finalize` closure from `createProxyHandler`: under the
`finalizeOnce.Do` latch, set duration, status code, headers, body and size;
classify 2xx as `Complete` (writing a cache entry when non-streaming and not
cache-bypassed) else `Error`; start token extraction when the body is
non-empty; write the `request_complete` tape event; notify the observer. -/
def finalizeCall (cfg : HandlerConfig) (who : FinalizeCaller) (statusCode : Nat)
    (respHeaders : Option GoHeaders) (responseBody : GoBytes)
    (responseSize : Nat) (s : HandlerState) : HandlerState :=
  if s.onceFired then s
  else
    { s with
      onceFired := true
      finalizeCount := s.finalizeCount + 1
      finalizedBy := some who
      durationSet := true
      statusCode := statusCode
      responseHeaders := respHeaders
      responseBody := responseBody
      responseSize := responseSize
      status := if 200 ≤ statusCode ∧ statusCode < 300 then .complete else .error
      cacheWrites := s.cacheWrites +
        (if (200 ≤ statusCode ∧ statusCode < 300) ∧
            ¬ cfg.isStreaming ∧ ¬ cfg.skipCache then 1 else 0)
      tokenExtracts := s.tokenExtracts + (if responseBody ≠ [] then 1 else 0)
      tapeCompletes := s.tapeCompletes + 1
      notifies := s.notifies + 1 }

/-- The schedulable steps of the handler transition system. -/
inductive HandlerStep where
  | cancel
  | serveReturn
  | mainClose
  | mainFinish
  | watcherCancel
  | watcherSkip
  deriving DecidableEq, Repr

/-- Whether a step can fire in a state (task at the right control point,
channel ready). -/
def stepEnabled (cfg : HandlerConfig) (s : HandlerState) : HandlerStep → Bool
  | .cancel => !s.ctxCancelled
  | .serveReturn => !cfg.cacheHit && s.mainPC == .start
  | .mainClose => (if cfg.cacheHit then s.mainPC == .start else s.mainPC == .served)
  | .mainFinish => s.mainPC == .closed
  | .watcherCancel => !s.watcherDone && s.ctxCancelled
  | .watcherSkip => !s.watcherDone && s.cancelDoneClosed

/-- Effect of one step.  `mainFinish` is the code after `close(cancelDone)`:
on the cache-hit path an unconditional `finalize` with the cached data; on
the miss path the `r.Context().Err() != nil` early return, else `finalize`
with the recorded upstream response. -/
def stepRun (cfg : HandlerConfig) (s : HandlerState) : HandlerStep → HandlerState
  | .cancel => { s with ctxCancelled := true }
  | .serveReturn => { s with mainPC := .served }
  | .mainClose => { s with cancelDoneClosed := true, mainPC := .closed }
  | .mainFinish =>
      if cfg.cacheHit then
        finalizeCall cfg .mainCacheHit cfg.cachedStatus (some cfg.cachedHeaders)
          cfg.cachedBody cfg.cachedBody.length { s with mainPC := .returned }
      else if s.ctxCancelled then { s with mainPC := .returned }
      else
        finalizeCall cfg .mainUpstream cfg.upstreamStatus (some cfg.upstreamHeaders)
          cfg.upstreamBody cfg.upstreamRawSize { s with mainPC := .returned }
  | .watcherCancel => finalizeCall cfg .watcher 499 none [] 0 { s with watcherDone := true }
  | .watcherSkip => { s with watcherDone := true }

/-- Run a schedule; a step that is not enabled does nothing (the scheduler
simply did not give that task a turn that advances). -/
def runHandler (cfg : HandlerConfig) : List HandlerStep → HandlerState → HandlerState
  | [], s => s
  | step :: rest, s =>
      runHandler cfg rest (if stepEnabled cfg s step then stepRun cfg s step else s)

/-- Strict runner: fails if any scheduled step is not enabled, so a `some`
result certifies the schedule as a genuine interleaving. -/
def runHandlerStrict (cfg : HandlerConfig) :
    List HandlerStep → HandlerState → Option HandlerState
  | [], s => some s
  | step :: rest, s =>
      if stepEnabled cfg s step then runHandlerStrict cfg rest (stepRun cfg s step)
      else none

/-- A concrete cache-miss configuration (200 upstream, one-byte body). -/
def demoHandlerCfg : HandlerConfig :=
  { isStreaming := false, skipCache := false, cacheHit := false,
    cachedStatus := 0, cachedBody := [], cachedHeaders := [],
    upstreamStatus := 200, upstreamBody := [1], upstreamHeaders := [],
    upstreamRawSize := 1 }

/-- A concrete schedule in which the client cancels and the watcher wins. -/
def demoCancelSched : List HandlerStep := [.cancel, .watcherCancel]

/-! ## Cache key normalizer (`cache.go`)

`GenerateCacheKey` parses the request body with `encoding/json`, re-serialises
a normalized subset of its fields with `json.Marshal`, and hashes the result
with `crypto/sha256` + `encoding/hex`.  The JSON library and the hash are
modelled concretely:

* JSON documents become `JValue`; parsing is a fuel-indexed recursive-descent
  parser over the character list.  Numbers are modelled as `Int` (Go decodes
  into `float64`; the bodies relevant to the claims carry integral values,
  and a fractional literal is outside the model).  Struct decoding follows
  `encoding/json`: unknown keys are ignored, later duplicate keys overwrite,
  a `null` leaves the field at its zero value, a type mismatch fails the
  whole unmarshal, and field names are matched exactly (the canonical
  lower-case spellings the code and its clients use).
* Go's `nil` slice for an absent/`null` `messages` field (marshalled as
  `null`) is distinguished from an empty slice (marshalled as `[]`) by an
  `Option`.
* `json.Marshal` output is modelled string-for-string: struct fields in
  declaration order with their tags, `omitempty` semantics, map keys sorted,
  strings escaped with the default HTML-escaping encoder.
* SHA-256 is implemented in full over byte lists; bodies are ASCII in every
  concrete input, so a character's code point is its UTF-8 byte. -/

/-- A decoded JSON document (`interface{}` after `encoding/json` decoding;
object member lists may carry duplicate keys in source order — consumers
apply last-wins). -/
inductive JValue where
  | null
  | bool (b : Bool)
  | num (n : Int)
  | str (s : String)
  | arr (elems : List JValue)
  | obj (fields : List (String × JValue))

/-- The `{` character (code 123). -/
def lbraceChar : Char := Char.ofNat 123

/-- The `}` character (code 125). -/
def rbraceChar : Char := Char.ofNat 125

/-- JSON insignificant whitespace. -/
def jsonWs (c : Char) : Bool :=
  c = ' ' || c = Char.ofNat 9 || c = Char.ofNat 10 || c = Char.ofNat 13

def skipWs : List Char → List Char
  | [] => []
  | c :: rest => if jsonWs c then skipWs rest else c :: rest

def hexVal (c : Char) : Option Nat :=
  if '0' ≤ c ∧ c ≤ '9' then some (c.toNat - '0'.toNat)
  else if 'a' ≤ c ∧ c ≤ 'f' then some (c.toNat - 'a'.toNat + 10)
  else if 'A' ≤ c ∧ c ≤ 'F' then some (c.toNat - 'A'.toNat + 10)
  else none

/-- Parse the characters of a JSON string after the opening quote, handling
the escape sequences (`\uXXXX` outside surrogate pairs). -/
def parseStringChars : Nat → List Char → Option (List Char × List Char)
  | 0, _ => none
  | _, [] => none
  | fuel + 1, c :: rest =>
      if c = '"' then some ([], rest)
      else if c = '\\' then
        match rest with
        | [] => none
        | e :: rest2 =>
            let decoded : Option (Char × List Char) :=
              if e = '"' then some ('"', rest2)
              else if e = '\\' then some ('\\', rest2)
              else if e = '/' then some ('/', rest2)
              else if e = 'n' then some (Char.ofNat 10, rest2)
              else if e = 't' then some (Char.ofNat 9, rest2)
              else if e = 'r' then some (Char.ofNat 13, rest2)
              else if e = 'b' then some (Char.ofNat 8, rest2)
              else if e = 'f' then some (Char.ofNat 12, rest2)
              else if e = 'u' then
                match rest2 with
                | h1 :: h2 :: h3 :: h4 :: rest3 =>
                    match hexVal h1, hexVal h2, hexVal h3, hexVal h4 with
                    | some v1, some v2, some v3, some v4 =>
                        some (Char.ofNat (((v1 * 16 + v2) * 16 + v3) * 16 + v4), rest3)
                    | _, _, _, _ => none
                | _ => none
              else none
            match decoded with
            | none => none
            | some (ch, rest3) =>
                match parseStringChars fuel rest3 with
                | some (cs, rem) => some (ch :: cs, rem)
                | none => none
      else
        match parseStringChars fuel rest with
        | some (cs, rem) => some (c :: cs, rem)
        | none => none

def isDigit (c : Char) : Bool := '0' ≤ c && c ≤ '9'

/-- Consume a run of decimal digits. -/
def parseDigits : Nat → List Char → Nat → Nat × List Char
  | 0, s, acc => (acc, s)
  | fuel + 1, s, acc =>
      match s with
      | [] => (acc, [])
      | c :: rest =>
          if isDigit c then parseDigits fuel rest (acc * 10 + (c.toNat - '0'.toNat))
          else (acc, c :: rest)

mutual

/-- Recursive-descent JSON parser (fuel bounds the recursion depth; any fuel
at least twice the input length suffices). -/
def parseJValue : Nat → List Char → Option (JValue × List Char)
  | 0, _ => none
  | fuel + 1, s =>
      match skipWs s with
      | [] => none
      | c :: rest =>
          if c = '"' then
            match parseStringChars (fuel + 1) rest with
            | some (cs, rem) => some (.str (String.mk cs), rem)
            | none => none
          else if c = lbraceChar then
            match skipWs rest with
            | c2 :: rest2 =>
                if c2 = rbraceChar then some (.obj [], rest2)
                else
                  match parseMembers fuel (c2 :: rest2) with
                  | some (fields, rem) => some (.obj fields, rem)
                  | none => none
            | [] => none
          else if c = '[' then
            match skipWs rest with
            | c2 :: rest2 =>
                if c2 = ']' then some (.arr [], rest2)
                else
                  match parseElems fuel (c2 :: rest2) with
                  | some (elems, rem) => some (.arr elems, rem)
                  | none => none
            | [] => none
          else if c = 't' then
            match rest with
            | 'r' :: 'u' :: 'e' :: rem => some (.bool true, rem)
            | _ => none
          else if c = 'f' then
            match rest with
            | 'a' :: 'l' :: 's' :: 'e' :: rem => some (.bool false, rem)
            | _ => none
          else if c = 'n' then
            match rest with
            | 'u' :: 'l' :: 'l' :: rem => some (.null, rem)
            | _ => none
          else if c = '-' then
            match rest with
            | d :: rest2 =>
                if isDigit d then
                  let (n, rem) := parseDigits (fuel + 1) rest2 (d.toNat - '0'.toNat)
                  some (.num (-(n : Int)), rem)
                else none
            | [] => none
          else if isDigit c then
            let (n, rem) := parseDigits (fuel + 1) rest (c.toNat - '0'.toNat)
            some (.num (n : Int), rem)
          else none

/-- Parse `"key": value` members separated by commas, up to the closing
brace. -/
def parseMembers : Nat → List Char → Option (List (String × JValue) × List Char)
  | 0, _ => none
  | fuel + 1, s =>
      match skipWs s with
      | c :: rest =>
          if c = '"' then
            match parseStringChars (fuel + 1) rest with
            | some (cs, rem) =>
                (match skipWs rem with
                 | ':' :: rem2 =>
                     match parseJValue fuel rem2 with
                     | some (v, rem3) =>
                         (match skipWs rem3 with
                          | ',' :: rem4 =>
                              match parseMembers fuel rem4 with
                              | some (fields, rem5) =>
                                  some ((String.mk cs, v) :: fields, rem5)
                              | none => none
                          | c5 :: rem4 =>
                              if c5 = rbraceChar then
                                some ([(String.mk cs, v)], rem4)
                              else none
                          | [] => none)
                     | none => none
                 | _ => none)
            | none => none
          else none
      | [] => none

/-- Parse array elements separated by commas, up to the closing bracket. -/
def parseElems : Nat → List Char → Option (List JValue × List Char)
  | 0, _ => none
  | fuel + 1, s =>
      match parseJValue fuel s with
      | some (v, rem) =>
          (match skipWs rem with
           | ',' :: rem2 =>
               match parseElems fuel rem2 with
               | some (elems, rem3) => some (v :: elems, rem3)
               | none => none
           | ']' :: rem2 => some ([v], rem2)
           | _ => none)
      | none => none

end

/-- Model of `json.Unmarshal`'s requirement that the input is a single JSON
document (possibly surrounded by whitespace). -/
def parseJSON (body : String) : Option JValue :=
  match parseJValue (2 * body.length + 8) body.data with
  | some (v, rem) => if skipWs rem = [] then some v else none
  | none => none

/-- Last-occurrence-wins member lookup (`encoding/json` overwrites a field on
a duplicate key). -/
def lookupField (key : String) (fields : List (String × JValue)) : Option JValue :=
  ((fields.filter (fun kv => decide (kv.1 = key))).getLast?).map Prod.snd

/-- Decode a `string` struct field: absent or `null` leaves the zero value,
a JSON string is taken, any other type fails the unmarshal. -/
def getString (fields : List (String × JValue)) (key : String) : Option String :=
  match lookupField key fields with
  | none => some ""
  | some .null => some ""
  | some (.str s) => some s
  | some _ => none

/-- Decode an `int` (or integral `float64`) struct field. -/
def getInt (fields : List (String × JValue)) (key : String) : Option Int :=
  match lookupField key fields with
  | none => some 0
  | some .null => some 0
  | some (.num n) => some n
  | some _ => none

/-- Decode a `bool` struct field. -/
def getBool (fields : List (String × JValue)) (key : String) : Option Bool :=
  match lookupField key fields with
  | none => some false
  | some .null => some false
  | some (.bool b) => some b
  | some _ => none

/-- The `ToolCallFunction` from `types.go`. -/
structure ToolCallFunction where
  Name : String
  Arguments : String

/-- The `ToolCall` from `types.go` (the Go field `Type`, JSON tag `type`, is
named `CallType` here because `Type` is reserved in Lean). -/
structure ToolCall where
  ID : String
  CallType : String
  Index : Int
  Function : ToolCallFunction

/-- The `OpenAIMessage` from `types.go`.  `Content` is a Go `any` (`JValue.null`
both for an absent key and an explicit `null`, exactly the Go nil
interface). -/
structure OpenAIMessage where
  Role : String
  Content : JValue
  Name : String
  ToolCalls : List ToolCall
  ToolCallID : String

/-- The `OpenAIRequest` from `types.go`.  `Messages` is `none` for a Go nil
slice (absent or `null` in the JSON — marshalled back as `null`), `some` for
a present array.  `Temperature` is a Go `float64`, integral in this model. -/
structure OpenAIRequest where
  Model : String
  Messages : Option (List OpenAIMessage)
  Temperature : Int
  MaxTokens : Int
  Stream : Bool

/-- The `AnthropicMessage` from `types.go`: `Content` is `interface{}`. -/
structure AnthropicMessage where
  Role : String
  Content : JValue

/-- The `AnthropicRequest` from `types.go`: `System` is `interface{}`
(`JValue.null` = Go nil, which the `omitempty` tag drops on marshal). -/
structure AnthropicRequest where
  Model : String
  Messages : Option (List AnthropicMessage)
  System : JValue
  MaxTokens : Int
  Stream : Bool
  Temperature : Int

def decodeToolCallFunction : JValue → Option ToolCallFunction
  | .null => some ⟨"", ""⟩
  | .obj f => do
      let name ← getString f "name"
      let args ← getString f "arguments"
      some ⟨name, args⟩
  | _ => none

def decodeToolCall : JValue → Option ToolCall
  | .null => some ⟨"", "", 0, ⟨"", ""⟩⟩
  | .obj f => do
      let id ← getString f "id"
      let ty ← getString f "type"
      let idx ← getInt f "index"
      let fn ← match lookupField "function" f with
        | none => some (⟨"", ""⟩ : ToolCallFunction)
        | some v => decodeToolCallFunction v
      some ⟨id, ty, idx, fn⟩
  | _ => none

def decodeOpenAIMessage : JValue → Option OpenAIMessage
  | .null => some ⟨"", .null, "", [], ""⟩
  | .obj f => do
      let role ← getString f "role"
      let content := (lookupField "content" f).getD .null
      let name ← getString f "name"
      let toolCalls ← match lookupField "tool_calls" f with
        | none => some []
        | some .null => some []
        | some (.arr xs) => xs.mapM decodeToolCall
        | some _ => none
      let tcid ← getString f "tool_call_id"
      some ⟨role, content, name, toolCalls, tcid⟩
  | _ => none

/-- Decode a `messages` slice field: absent / `null` is a Go nil slice. -/
def decodeMessagesWith (dec : JValue → Option α)
    (fields : List (String × JValue)) : Option (Option (List α)) :=
  match lookupField "messages" fields with
  | none => some none
  | some .null => some none
  | some (.arr xs) => (xs.mapM dec).map some
  | some _ => none

def decodeOpenAIRequest : JValue → Option OpenAIRequest
  | .null => some ⟨"", none, 0, 0, false⟩
  | .obj f => do
      let model ← getString f "model"
      let messages ← decodeMessagesWith decodeOpenAIMessage f
      let temp ← getInt f "temperature"
      let maxTok ← getInt f "max_tokens"
      let stream ← getBool f "stream"
      some ⟨model, messages, temp, maxTok, stream⟩
  | _ => none

def decodeAnthropicMessage : JValue → Option AnthropicMessage
  | .null => some ⟨"", .null⟩
  | .obj f => do
      let role ← getString f "role"
      let content := (lookupField "content" f).getD .null
      some ⟨role, content⟩
  | _ => none

def decodeAnthropicRequest : JValue → Option AnthropicRequest
  | .null => some ⟨"", none, .null, 0, false, 0⟩
  | .obj f => do
      let model ← getString f "model"
      let messages ← decodeMessagesWith decodeAnthropicMessage f
      let system := (lookupField "system" f).getD .null
      let maxTok ← getInt f "max_tokens"
      let stream ← getBool f "stream"
      let temp ← getInt f "temperature"
      some ⟨model, messages, system, maxTok, stream, temp⟩
  | _ => none

/-- The `json.Unmarshal(requestBody, &req)` for `AnthropicRequest`. -/
def unmarshalAnthropicRequest (body : String) : Option AnthropicRequest :=
  (parseJSON body).bind decodeAnthropicRequest

/-- The `json.Unmarshal(requestBody, &req)` for `OpenAIRequest`. -/
def unmarshalOpenAIRequest (body : String) : Option OpenAIRequest :=
  (parseJSON body).bind decodeOpenAIRequest

/-! ### `json.Marshal` of the normalized structs -/

def hexDigitChar (n : Nat) : Char :=
  if n < 10 then Char.ofNat ('0'.toNat + n) else Char.ofNat ('a'.toNat + n - 10)

/-- The `encoding/json` string escaping (default encoder: HTML-escapes `<`, `>`,
`&`; short escapes for quote, backslash, newline, carriage return, tab;
`\u00XX` for other control characters). -/
def escapeChar (c : Char) : List Char :=
  if c = '"' then ['\\', '"']
  else if c = '\\' then ['\\', '\\']
  else if c = Char.ofNat 10 then ['\\', 'n']
  else if c = Char.ofNat 13 then ['\\', 'r']
  else if c = Char.ofNat 9 then ['\\', 't']
  else if c = '<' ∨ c = '>' ∨ c = '&' ∨ c.toNat < 32 then
    ['\\', 'u', '0', '0', hexDigitChar (c.toNat / 16 % 16), hexDigitChar (c.toNat % 16)]
  else [c]

def quoteString (s : String) : String :=
  String.mk ('"' :: s.data.foldr (fun c acc => escapeChar c ++ acc) ['"'])

/-- The `"{"` (written via its code so that the brace is data, not syntax). -/
def lbrace : String := String.mk [lbraceChar]

/-- The `"}"`. -/
def rbrace : String := String.mk [rbraceChar]

/-- Go map insert for decoded objects (duplicate keys: last wins). -/
def jStore (k : String) (v : JValue) :
    List (String × JValue) → List (String × JValue)
  | [] => [(k, v)]
  | (k1, v1) :: rest =>
      if k1 = k then (k, v) :: rest else (k1, v1) :: jStore k v rest

def dedupFields (fs : List (String × JValue)) : List (String × JValue) :=
  fs.foldl (fun acc kv => jStore kv.1 kv.2 acc) []

mutual

/-- Nesting depth of a decoded JSON value (fuel for the marshaller). -/
def jdepth : JValue → Nat
  | .null => 1
  | .bool _ => 1
  | .num _ => 1
  | .str _ => 1
  | .arr xs => 1 + jdepthList xs
  | .obj fs => 1 + jdepthFields fs
termination_by structural v => v

def jdepthList : List JValue → Nat
  | [] => 0
  | x :: xs => max (jdepth x) (jdepthList xs)
termination_by structural l => l

def jdepthFields : List (String × JValue) → Nat
  | [] => 0
  | kv :: rest => max (jdepth kv.2) (jdepthFields rest)
termination_by structural l => l

end

/-- The `json.Marshal` of a decoded `interface{}` value: maps come back sorted
by key with duplicates collapsed (the decoder built a Go map).  The fuel,
spent one level per nesting depth, is instantiated with the value's depth,
so it never runs out. -/
def marshalJValueF : Nat → JValue → String
  | 0, _ => ""
  | fuel + 1, v =>
      match v with
      | .null => "null"
      | .bool b => if b then "true" else "false"
      | .num n => toString n
      | .str s => quoteString s
      | .arr xs => "[" ++ String.intercalate "," (xs.map (marshalJValueF fuel)) ++ "]"
      | .obj fs =>
          lbrace ++
            String.intercalate ","
              ((sortSlice (fun a b => decide (a.1 < b.1)) (dedupFields fs)).map
                (fun kv => quoteString kv.1 ++ ":" ++ marshalJValueF fuel kv.2)) ++
          rbrace

def marshalJValue (v : JValue) : String := marshalJValueF (jdepth v) v

/-- The `json.Marshal` of a `[]T` field: Go nil slice marshals as `null`. -/
def marshalSliceJSON (ms : Option (List α)) (f : α → String) : String :=
  match ms with
  | none => "null"
  | some xs => "[" ++ String.intercalate "," (xs.map f) ++ "]"

def marshalToolCallFunctionJSON (fn : ToolCallFunction) : String :=
  lbrace ++ quoteString "name" ++ ":" ++ quoteString fn.Name ++ "," ++
    quoteString "arguments" ++ ":" ++ quoteString fn.Arguments ++ rbrace

def marshalToolCallJSON (tc : ToolCall) : String :=
  lbrace ++ quoteString "id" ++ ":" ++ quoteString tc.ID ++ "," ++
    quoteString "type" ++ ":" ++ quoteString tc.CallType ++
    (if tc.Index = 0 then ""
     else "," ++ quoteString "index" ++ ":" ++ toString tc.Index) ++
    "," ++ quoteString "function" ++ ":" ++ marshalToolCallFunctionJSON tc.Function ++
  rbrace

def marshalOpenAIMessageJSON (m : OpenAIMessage) : String :=
  lbrace ++ quoteString "role" ++ ":" ++ quoteString m.Role ++ "," ++
    quoteString "content" ++ ":" ++ marshalJValue m.Content ++
    (if m.Name = "" then "" else "," ++ quoteString "name" ++ ":" ++ quoteString m.Name) ++
    (match m.ToolCalls with
     | [] => ""
     | xs => "," ++ quoteString "tool_calls" ++ ":[" ++
         String.intercalate "," (xs.map marshalToolCallJSON) ++ "]") ++
    (if m.ToolCallID = "" then ""
     else "," ++ quoteString "tool_call_id" ++ ":" ++ quoteString m.ToolCallID) ++
  rbrace

def marshalAnthropicMessageJSON (m : AnthropicMessage) : String :=
  lbrace ++ quoteString "role" ++ ":" ++ quoteString m.Role ++ "," ++
    quoteString "content" ++ ":" ++ marshalJValue m.Content ++ rbrace

/-- The `json.Marshal` of the anonymous normalized struct in the Anthropic
branch of `GenerateCacheKey`: fields `model`, `messages`,
`system,omitempty`, `max_tokens`, `stream` in declaration order. -/
def marshalAnthropicNormalized (req : AnthropicRequest) : String :=
  lbrace ++ quoteString "model" ++ ":" ++ quoteString req.Model ++
    "," ++ quoteString "messages" ++ ":" ++
      marshalSliceJSON req.Messages marshalAnthropicMessageJSON ++
    (match req.System with
     | .null => ""
     | v => "," ++ quoteString "system" ++ ":" ++ marshalJValue v) ++
    "," ++ quoteString "max_tokens" ++ ":" ++ toString req.MaxTokens ++
    "," ++ quoteString "stream" ++ ":" ++ (if req.Stream then "true" else "false") ++
  rbrace

/-- The `json.Marshal` of the anonymous normalized struct in the OpenAI branch
of `GenerateCacheKey`: fields `model`, `messages`, `temperature`,
`max_tokens`, `stream` in declaration order. -/
def marshalOpenAINormalized (req : OpenAIRequest) : String :=
  lbrace ++ quoteString "model" ++ ":" ++ quoteString req.Model ++
    "," ++ quoteString "messages" ++ ":" ++
      marshalSliceJSON req.Messages marshalOpenAIMessageJSON ++
    "," ++ quoteString "temperature" ++ ":" ++ toString req.Temperature ++
    "," ++ quoteString "max_tokens" ++ ":" ++ toString req.MaxTokens ++
    "," ++ quoteString "stream" ++ ":" ++ (if req.Stream then "true" else "false") ++
  rbrace

/-! ### `crypto/sha256` and `encoding/hex` -/

/-- Truncate to a 32-bit word. -/
def w32 (x : Nat) : Nat := x % 4294967296

def rotr32 (n x : Nat) : Nat := w32 ((x >>> n) ||| (x <<< (32 - n)))

def bigSigma0 (x : Nat) : Nat := rotr32 2 x ^^^ rotr32 13 x ^^^ rotr32 22 x

def bigSigma1 (x : Nat) : Nat := rotr32 6 x ^^^ rotr32 11 x ^^^ rotr32 25 x

def smallSigma0 (x : Nat) : Nat := rotr32 7 x ^^^ rotr32 18 x ^^^ (x >>> 3)

def smallSigma1 (x : Nat) : Nat := rotr32 17 x ^^^ rotr32 19 x ^^^ (x >>> 10)

def sha256K : List Nat :=
  [1116352408, 1899447441, 3049323471, 3921009573,
   961987163, 1508970993, 2453635748, 2870763221,
   3624381080, 310598401, 607225278, 1426881987,
   1925078388, 2162078206, 2614888103, 3248222580,
   3835390401, 4022224774, 264347078, 604807628,
   770255983, 1249150122, 1555081692, 1996064986,
   2554220882, 2821834349, 2952996808, 3210313671,
   3336571891, 3584528711, 113926993, 338241895,
   666307205, 773529912, 1294757372, 1396182291,
   1695183700, 1986661051, 2177026350, 2456956037,
   2730485921, 2820302411, 3259730800, 3345764771,
   3516065817, 3600352804, 4094571909, 275423344,
   430227734, 506948616, 659060556, 883997877,
   958139571, 1322822218, 1537002063, 1747873779,
   1955562222, 2024104815, 2227730452, 2361852424,
   2428436474, 2756734187, 3204031479, 3329325298]

def sha256H0 : List Nat :=
  [1779033703, 3144134277, 1013904242, 2773480762,
   1359893119, 2600822924, 528734635, 1541459225]

/-- The `k` big-endian bytes of `n`. -/
def beBytes (k : Nat) (n : Nat) : List Nat :=
  (List.range k).map (fun i => n >>> (8 * (k - 1 - i)) % 256)

/-- SHA-256 padding: `0x80`, zeros, 64-bit big-endian bit length. -/
def sha256Pad (msg : List Nat) : List Nat :=
  let len := msg.length
  let padLen := (64 - (len + 9) % 64) % 64
  msg ++ 128 :: List.replicate padLen 0 ++ beBytes 8 (len * 8)

def bytesToWords : List Nat → List Nat
  | b0 :: b1 :: b2 :: b3 :: rest =>
      (((b0 * 256 + b1) * 256 + b2) * 256 + b3) :: bytesToWords rest
  | _ => []

/-- Extend the 16-word block to the 64-word message schedule. -/
def scheduleExtend : Nat → List Nat → List Nat
  | 0, w => w
  | n + 1, w =>
      scheduleExtend n (w ++
        [w32 (smallSigma1 (w.getD (w.length - 2) 0) + w.getD (w.length - 7) 0 +
          smallSigma0 (w.getD (w.length - 15) 0) + w.getD (w.length - 16) 0)])

/-- One SHA-256 compression round. -/
def sha256Round (w : List Nat)
    (st : Nat × Nat × Nat × Nat × Nat × Nat × Nat × Nat) (i : Nat) :
    Nat × Nat × Nat × Nat × Nat × Nat × Nat × Nat :=
  let (a, b, c, d, e, f, g, h) := st
  let ch := (e &&& f) ^^^ ((e ^^^ 4294967295) &&& g)
  let maj := (a &&& b) ^^^ (a &&& c) ^^^ (b &&& c)
  let t1 := w32 (h + bigSigma1 e + ch + sha256K.getD i 0 + w.getD i 0)
  let t2 := w32 (bigSigma0 a + maj)
  (w32 (t1 + t2), a, b, c, w32 (d + t1), e, f, g)

/-- Compress one 512-bit block into the chaining state. -/
def sha256Compress (hs : List Nat) (block : List Nat) : List Nat :=
  let w := scheduleExtend 48 block
  let init := (hs.getD 0 0, hs.getD 1 0, hs.getD 2 0, hs.getD 3 0,
    hs.getD 4 0, hs.getD 5 0, hs.getD 6 0, hs.getD 7 0)
  let (a, b, c, d, e, f, g, h) := (List.range 64).foldl (sha256Round w) init
  [w32 (hs.getD 0 0 + a), w32 (hs.getD 1 0 + b), w32 (hs.getD 2 0 + c),
   w32 (hs.getD 3 0 + d), w32 (hs.getD 4 0 + e), w32 (hs.getD 5 0 + f),
   w32 (hs.getD 6 0 + g), w32 (hs.getD 7 0 + h)]

def processBlocks : Nat → List Nat → List Nat → List Nat
  | 0, hs, _ => hs
  | fuel + 1, hs, ws =>
      match ws with
      | [] => hs
      | _ => processBlocks fuel (sha256Compress hs (ws.take 16)) (ws.drop 16)

/-- The `sha256.Sum256` over a byte list. -/
def sha256Bytes (msg : List Nat) : List Nat :=
  let ws := bytesToWords (sha256Pad msg)
  let hs := processBlocks ws.length sha256H0 ws
  hs.foldr (fun h acc => beBytes 4 h ++ acc) []

/-- The `hex.EncodeToString` (lower case). -/
def hexOfBytes (bs : List Nat) : String :=
  String.mk (bs.foldr
    (fun b acc => hexDigitChar (b / 16 % 16) :: hexDigitChar (b % 16) :: acc) [])

/-- The bytes of a request body (bodies in this development are ASCII, where
a character's code point is its single UTF-8 byte). -/
def strBytes (s : String) : List Nat := s.data.map Char.toNat

/-- The `strings.HasSuffix` (structural, so that it evaluates by reduction). -/
def strEndsWith (s suffix : String) : Bool :=
  List.isPrefixOf suffix.data.reverse s.data.reverse

/-- The `isAnthropicEndpoint` from `proxy.go`. -/
def isAnthropicEndpoint (path : String) : Bool := strEndsWith path "/v1/messages"

/-- The `GenerateCacheKey` from `cache.go`: Anthropic dialect for `/v1/messages`
paths, OpenAI dialect otherwise; a body that fails to unmarshal is hashed
raw; a parsed body is re-serialised through the dialect's normalized subset
of fields and hashed; the key is `path + ":" + hex(sha256(data))`. -/
def GenerateCacheKey (path : String) (requestBody : String) : String :=
  if isAnthropicEndpoint path then
    match unmarshalAnthropicRequest requestBody with
    | none => path ++ ":" ++ hexOfBytes (sha256Bytes (strBytes requestBody))
    | some req =>
        path ++ ":" ++ hexOfBytes (sha256Bytes (strBytes (marshalAnthropicNormalized req)))
  else
    match unmarshalOpenAIRequest requestBody with
    | none => path ++ ":" ++ hexOfBytes (sha256Bytes (strBytes requestBody))
    | some req =>
        path ++ ":" ++ hexOfBytes (sha256Bytes (strBytes (marshalOpenAINormalized req)))

/-- A parseable OpenAI-dialect body: `{"model":"m","messages":[{"role":
"user","content":"hi"}]}` (braces written via `\x7b`/`\x7d`). -/
def openAIBodyHi : String :=
  "\x7b\"model\":\"m\",\"messages\":[\x7b\"role\":\"user\",\"content\":\"hi\"\x7d]\x7d"

/-- The same body with only the `messages` field changed (`hi` → `yo`). -/
def openAIBodyYo : String :=
  "\x7b\"model\":\"m\",\"messages\":[\x7b\"role\":\"user\",\"content\":\"yo\"\x7d]\x7d"

/-- A parseable Anthropic-dialect body with `system` `"alpha"`. -/
def anthropicBodyAlpha : String :=
  "\x7b\"model\":\"m\",\"messages\":[\x7b\"role\":\"user\",\"content\":\"hi\"\x7d],\"system\":\"alpha\",\"max_tokens\":5\x7d"

/-- The same body with only the `system` field changed (`alpha` → `beta`). -/
def anthropicBodyBeta : String :=
  "\x7b\"model\":\"m\",\"messages\":[\x7b\"role\":\"user\",\"content\":\"hi\"\x7d],\"system\":\"beta\",\"max_tokens\":5\x7d"

/-- Concrete events, payloads and decoders used by the witnesses below. -/
def demoEvent1 : TapeEvent :=
  { Timestamp := 100, EventType := "request_start", Sequence := 1, Data := "p1" }

def demoEvent2 : TapeEvent :=
  { Timestamp := 200, EventType := "request_complete", Sequence := 2, Data := "p2" }

def demoData1 : TapeRequestData :=
  { ID := 1, Method := "POST", Path := "/v1/chat/completions", Host := "h",
    URL := "u", Model := "m", Status := .pending, StatusCode := 0,
    StartTime := 100, Duration := 0, RequestHeaders := [], ResponseHeaders := [],
    RequestBody := [], ResponseBody := [], RequestSize := 0, ResponseSize := 0,
    IsStreaming := false, EstimatedInputTokens := 0, InputTokens := 0,
    OutputTokens := 0, ProviderID := "", Cost := 0 }

def demoData2 : TapeRequestData :=
  { demoData1 with Status := .complete, StatusCode := 200, Duration := 100,
                   ResponseBody := [42], ResponseSize := 1 }

/-- A concrete decoder behaviour: two recognizable lines/payloads, everything
else fails to decode. -/
def demoDecoders : TapeDecoders :=
  { decodeEvent := fun line =>
      if line = "line1" then some demoEvent1
      else if line = "line2" then some demoEvent2
      else none
    decodeSession := fun _ => none
    decodeRequest := fun payload =>
      if payload = "p1" then some demoData1
      else if payload = "p2" then some demoData2
      else none }

/-- The keys of the replay state map. -/
def keysOf (m : List (Nat × LLMRequest)) : List Nat := m.map Prod.fst

/-- Invariant of the replay state map: keys are distinct and each entry is
stored under its record's ID. -/
def GoodMap (m : List (Nat × LLMRequest)) : Prop :=
  (keysOf m).Nodup ∧ ∀ p ∈ m, (Prod.snd p).ID = Prod.fst p

/-- A concrete loaded tape over the demo events: request 1 starts at time
100 (`demoEvent1`, still pending) and completes at time 200 (`demoEvent2`). -/
def demoTape : Tape :=
  { FilePath := "demo", Session := ⟨":8080", "http://t", 100, "1.0"⟩,
    Events := [demoEvent1, demoEvent2],
    Requests := [tapeDataToRequest demoData2],
    RequestMap := [(1, tapeDataToRequest demoData2)],
    Timeline := [⟨100, some demoEvent1, 1⟩, ⟨200, some demoEvent2, 1⟩],
    CurrentTime := 100, StartTime := 100, EndTime := 200, Duration := 100 }

/-- Invariant maintained by every step of the handler transition system:
the finalize body runs at most once (the `sync.Once` latch), an unfinalized
record still has its `Pending`-state zero values, and a watcher-fired
finalize left status 499, no body, no headers, `Error` status, no cache
write and no token extraction. -/
def FinalizeInv (s : HandlerState) : Prop :=
  s.finalizeCount ≤ 1 ∧
  (s.onceFired = true ↔ s.finalizeCount = 1) ∧
  (s.finalizeCount = 0 →
    s.status = .pending ∧ s.statusCode = 0 ∧ s.responseBody = [] ∧
    s.responseHeaders = none ∧ s.cacheWrites = 0 ∧ s.tokenExtracts = 0 ∧
    s.tapeCompletes = 0 ∧ s.finalizedBy = none) ∧
  (s.finalizedBy = some .watcher →
    s.statusCode = 499 ∧ s.responseBody = [] ∧ s.responseHeaders = none ∧
    s.status = .error ∧ s.cacheWrites = 0 ∧ s.tokenExtracts = 0)

end LLMProxy

namespace LLMProxy

/-! ## Correctness of the `sort.Slice` model -/

theorem mem_sortInsert {less : α → α → Bool} {x a : α} {l : List α} :
    a ∈ sortInsert less x l ↔ a = x ∨ a ∈ l := by
  induction l with
  | nil => simp [sortInsert]
  | cons y ys ih =>
      cases h : less x y
      · simp only [sortInsert, h, cond_false, List.mem_cons, ih]
        tauto
      · simp only [sortInsert, h, cond_true, List.mem_cons]

theorem sortInsert_perm (less : α → α → Bool) (x : α) (l : List α) :
    (sortInsert less x l).Perm (x :: l) := by
  induction l with
  | nil => simp [sortInsert]
  | cons y ys ih =>
      cases h : less x y
      · simp only [sortInsert, h, cond_false]
        exact (ih.cons y).trans (List.Perm.swap x y ys)
      · simp [sortInsert, h]

theorem sortSlice_perm (less : α → α → Bool) (l : List α) :
    (sortSlice less l).Perm l := by
  induction l with
  | nil => simp [sortSlice]
  | cons x xs ih =>
      exact ((sortInsert_perm less x (sortSlice less xs)).trans (ih.cons x))

/-- Inserting into a list ordered by `less` (strict: irreflexive and
transitive) keeps it ordered. -/
theorem pairwise_sortInsert {less : α → α → Bool}
    (htrans : ∀ a b c, less a b = true → less b c = true → less a c = true)
    (hirr : ∀ a, less a a = false) (x : α) {l : List α}
    (h : l.Pairwise fun a b => less b a = false) :
    (sortInsert less x l).Pairwise fun a b => less b a = false := by
  induction l with
  | nil => simp [sortInsert]
  | cons y ys ih =>
      rw [List.pairwise_cons] at h
      obtain ⟨hy, hys⟩ := h
      cases hxy : less x y
      · simp only [sortInsert, hxy, cond_false]
        rw [List.pairwise_cons]
        refine ⟨?_, ih hys⟩
        intro z hz
        rcases mem_sortInsert.mp hz with rfl | hz'
        · exact hxy
        · exact hy z hz'
      · simp only [sortInsert, hxy, cond_true]
        rw [List.pairwise_cons]
        refine ⟨?_, List.pairwise_cons.mpr ⟨hy, hys⟩⟩
        intro z hz
        rcases List.mem_cons.mp hz with rfl | hz'
        · by_contra hyx
          rw [Bool.not_eq_false] at hyx
          have := htrans z x z hyx hxy
          rw [hirr] at this
          exact Bool.false_ne_true this
        · by_contra hzx
          rw [Bool.not_eq_false] at hzx
          have := htrans z x y hzx hxy
          rw [hy z hz'] at this
          exact Bool.false_ne_true this

theorem pairwise_sortSlice {less : α → α → Bool}
    (htrans : ∀ a b c, less a b = true → less b c = true → less a c = true)
    (hirr : ∀ a, less a a = false) (l : List α) :
    (sortSlice less l).Pairwise fun a b => less b a = false := by
  induction l with
  | nil => simp [sortSlice]
  | cons x xs ih => exact pairwise_sortInsert htrans hirr x ih

/-! ## Theorems for claims C4, C9, C10 -/

/-- C4: after `LoadTape` returns, the `Requests` list is sorted ascending by
ID and the `Timeline` entries are non-decreasing in time — for any decoder
behaviour, file name and file contents. -/
theorem C4_loadTape_sorted (dec : TapeDecoders) (filename : String)
    (lines : List String) :
    ((LoadTape dec filename lines).Requests).Pairwise (fun a b => a.ID ≤ b.ID) ∧
    ((LoadTape dec filename lines).Timeline).Pairwise (fun a b => a.Time ≤ b.Time) := by
  constructor
  · have h := @pairwise_sortSlice LLMRequest
      (fun (a b : LLMRequest) => decide (a.ID < b.ID))
      (fun a b c hab hbc => by
        simp only [decide_eq_true_eq] at hab hbc ⊢
        exact lt_trans hab hbc)
      (fun a => by simp)
      ((lines.foldl (processLine dec) initLoadState).requestOrder.filterMap
        (fun id => reqLookup id (lines.foldl (processLine dec) initLoadState).requestMap))
    refine List.Pairwise.imp ?_ h
    intro a b hab
    simp only [decide_eq_false_iff_not, not_lt] at hab
    exact hab
  · have h := @pairwise_sortSlice TimelineEntry
      (fun (a b : TimelineEntry) => decide (a.Time < b.Time))
      (fun a b c hab hbc => by
        simp only [decide_eq_true_eq] at hab hbc ⊢
        exact lt_trans hab hbc)
      (fun a => by simp)
      ((lines.foldl (processLine dec) initLoadState).timeline)
    refine List.Pairwise.imp ?_ h
    intro a b hab
    simp only [decide_eq_false_iff_not, not_lt] at hab
    exact hab

/-- C9: a tape-file line whose decoding as a `TapeEvent` fails is skipped,
and `LoadTape` produces exactly the tape it would produce without that line
— whatever precedes or follows it. -/
theorem C9_loadTape_skips_malformed (dec : TapeDecoders) (filename : String)
    (pre post : List String) (bad : String) (h : dec.decodeEvent bad = none) :
    LoadTape dec filename (pre ++ bad :: post) = LoadTape dec filename (pre ++ post) := by
  have hskip : ∀ st, processLine dec st bad = st := by
    intro st
    simp [processLine, h]
  simp [LoadTape, List.foldl_append, hskip]


/-- C9 witness: loading a concrete tape with a corrupt line between two good
lines gives the same tape as loading without it. -/
theorem C9_loadTape_skips_malformed_witness :
    LoadTape demoDecoders "tape.jsonl" (["line1"] ++ "garbage" :: ["line2"]) =
      LoadTape demoDecoders "tape.jsonl" (["line1"] ++ ["line2"]) :=
  C9_loadTape_skips_malformed demoDecoders "tape.jsonl" ["line1"] ["line2"] "garbage" rfl

/-- C10: `GetRequestsAtTime`, embedded as a state transformer like the
mutating clock operations (`StepForward`, `StepBackward`), leaves every field
of the tape unchanged and returns exactly the pure query result: the replay
builds its state map and result list in fresh locals. -/
theorem C10_getRequestsAtTime_pure (dec : TapeDecoders) (t : Tape) (x : GoTime) :
    (Tape.GetRequestsAtTimeST dec t x).2 = t ∧
    (Tape.GetRequestsAtTimeST dec t x).1 = Tape.GetRequestsAtTime dec t x :=
  ⟨rfl, rfl⟩

/-! ## Theorems for claim C5 (replay monotonicity) -/

theorem optOr_none (a : Option α) : optOr a none = a := by
  cases a <;> rfl

theorem optOr_assoc (a b c : Option α) : optOr (optOr a b) c = optOr a (optOr b c) := by
  cases a <;> rfl

theorem find?_append (p : α → Bool) (l1 l2 : List α) :
    (l1 ++ l2).find? p = optOr (l1.find? p) (l2.find? p) := by
  induction l1 with
  | nil => rfl
  | cons x xs ih =>
      cases h : p x
      · rw [List.cons_append, List.find?_cons_of_neg _ (by simp [h]),
          List.find?_cons_of_neg _ (by simp [h]), ih]
      · rw [List.cons_append, List.find?_cons_of_pos _ h,
          List.find?_cons_of_pos _ h]
        rfl

theorem reqLookup_reqStore (k id : Nat) (v : LLMRequest)
    (m : List (Nat × LLMRequest)) :
    reqLookup id (reqStore k v m) = if k = id then some v else reqLookup id m := by
  induction m with
  | nil => simp [reqStore, reqLookup]
  | cons hd tl ih =>
      obtain ⟨k1, v1⟩ := hd
      by_cases h : k1 = k
      · subst h
        simp only [reqStore, if_pos rfl, reqLookup]
        by_cases hk : k1 = id <;> simp [hk]
      · simp only [reqStore, if_neg h, reqLookup, ih]
        by_cases hk1 : k1 = id
        · have hk : ¬ k = id := fun hc => h (by rw [hk1, hc])
          simp [hk1, hk]
        · simp [hk1]

theorem replayStep_eq (dec : TapeDecoders) (m : List (Nat × LLMRequest))
    (entry : TimelineEntry) :
    replayStep dec m entry =
      match decodeEntry dec entry with
      | none => m
      | some r => reqStore r.ID r m := by
  cases hev : entry.Event with
  | none => simp [replayStep, decodeEntry, hev]
  | some ev =>
      cases hrd : dec.decodeRequest ev.Data with
      | none => simp [replayStep, decodeEntry, hev, hrd]
      | some rd =>
          simp only [replayStep, decodeEntry, hev, hrd]
          rfl

theorem foldl_replayStep (dec : TapeDecoders) (entries : List TimelineEntry)
    (m : List (Nat × LLMRequest)) :
    entries.foldl (replayStep dec) m =
      (entries.filterMap (decodeEntry dec)).foldl
        (fun m r => reqStore r.ID r m) m := by
  induction entries generalizing m with
  | nil => rfl
  | cons e es ih =>
      rw [List.foldl_cons, replayStep_eq]
      cases h : decodeEntry dec e with
      | none =>
          rw [List.filterMap_cons_none h]
          exact ih m
      | some r =>
          rw [List.filterMap_cons_some h, List.foldl_cons]
          exact ih _

theorem reqLookup_foldl_store (rs : List LLMRequest)
    (m : List (Nat × LLMRequest)) (id : Nat) :
    reqLookup id (rs.foldl (fun m r => reqStore r.ID r m) m) =
      optOr (lastWith id rs) (reqLookup id m) := by
  induction rs generalizing m with
  | nil => simp [lastWith, optOr]
  | cons r rest ih =>
      rw [List.foldl_cons, ih, reqLookup_reqStore]
      have h1 : lastWith id (r :: rest) =
          optOr (lastWith id rest) (if r.ID = id then some r else none) := by
        unfold lastWith
        rw [List.reverse_cons, find?_append]
        congr 1
        by_cases h : r.ID = id
        · rw [List.find?_cons_of_pos _ (by simpa using h), if_pos h]
        · rw [List.find?_cons_of_neg _ (by simpa using h), if_neg h]
          rfl
      rw [h1, optOr_assoc]
      congr 1
      by_cases h : r.ID = id <;> simp [h, optOr]


theorem keysOf_reqStore (k : Nat) (v : LLMRequest) (m : List (Nat × LLMRequest)) :
    keysOf (reqStore k v m) =
      if k ∈ keysOf m then keysOf m else keysOf m ++ [k] := by
  induction m with
  | nil => simp [keysOf, reqStore]
  | cons hd tl ih =>
      obtain ⟨k1, v1⟩ := hd
      by_cases h : k1 = k
      · subst h
        simp [keysOf, reqStore]
      · have e1 : reqStore k v ((k1, v1) :: tl) = (k1, v1) :: reqStore k v tl := by
          simp [reqStore, h]
        have e2 : keysOf ((k1, v1) :: reqStore k v tl) = k1 :: keysOf (reqStore k v tl) := rfl
        have e3 : keysOf ((k1, v1) :: tl) = k1 :: keysOf tl := rfl
        rw [e1, e2, e3, ih]
        by_cases hk : k ∈ keysOf tl
        · rw [if_pos hk, if_pos (List.mem_cons_of_mem _ hk)]
        · have hni : k ∉ k1 :: keysOf tl := by
            intro hc
            rcases List.mem_cons.mp hc with rfl | hc'
            · exact h rfl
            · exact hk hc'
          rw [if_neg hk, if_neg hni, List.cons_append]

theorem mem_reqStore {k : Nat} {v : LLMRequest} {m : List (Nat × LLMRequest)}
    {p : Nat × LLMRequest} (hp : p ∈ reqStore k v m) : p = (k, v) ∨ p ∈ m := by
  induction m with
  | nil =>
      left
      simpa [reqStore] using hp
  | cons hd tl ih =>
      obtain ⟨k1, v1⟩ := hd
      by_cases h : k1 = k
      · rw [show reqStore k v ((k1, v1) :: tl) = (k, v) :: tl by simp [reqStore, h]] at hp
        rcases List.mem_cons.mp hp with h' | h'
        · exact Or.inl h'
        · exact Or.inr (List.mem_cons_of_mem _ h')
      · rw [show reqStore k v ((k1, v1) :: tl) = (k1, v1) :: reqStore k v tl by
            simp [reqStore, h]] at hp
        rcases List.mem_cons.mp hp with h' | h'
        · rw [h']
          exact Or.inr (List.mem_cons_self _ _)
        · rcases ih h' with h2 | h2
          · exact Or.inl h2
          · exact Or.inr (List.mem_cons_of_mem _ h2)

theorem goodMap_reqStore {k : Nat} {v : LLMRequest} {m : List (Nat × LLMRequest)}
    (hg : GoodMap m) (hv : v.ID = k) : GoodMap (reqStore k v m) := by
  obtain ⟨hnd, hprop⟩ := hg
  constructor
  · rw [keysOf_reqStore]
    by_cases hk : k ∈ keysOf m
    · simpa [hk] using hnd
    · rw [if_neg hk, List.nodup_append]
      refine ⟨hnd, List.nodup_singleton k, fun a ha hb => ?_⟩
      rw [List.mem_singleton] at hb
      rw [hb] at ha
      exact hk ha
  · intro p hp
    rcases mem_reqStore hp with rfl | hp'
    · exact hv
    · exact hprop p hp'

theorem goodMap_foldl (rs : List LLMRequest) (m : List (Nat × LLMRequest))
    (hg : GoodMap m) :
    GoodMap (rs.foldl (fun m r => reqStore r.ID r m) m) := by
  induction rs generalizing m with
  | nil => exact hg
  | cons r rest ih =>
      rw [List.foldl_cons]
      exact ih _ (goodMap_reqStore hg rfl)

theorem reqLookup_mem {m : List (Nat × LLMRequest)} {id : Nat} {v : LLMRequest}
    (h : reqLookup id m = some v) : (id, v) ∈ m := by
  induction m with
  | nil => simp [reqLookup] at h
  | cons hd tl ih =>
      obtain ⟨k1, v1⟩ := hd
      by_cases hk : k1 = id
      · subst hk
        have h1 : reqLookup k1 ((k1, v1) :: tl) = some v1 := by simp [reqLookup]
        rw [h1, Option.some_inj] at h
        rw [← h]
        exact List.mem_cons_self _ _
      · simp only [reqLookup, if_neg hk] at h
        exact List.mem_cons_of_mem _ (ih h)

theorem mem_values_iff_lookup {m : List (Nat × LLMRequest)} (hg : GoodMap m)
    (r : LLMRequest) : r ∈ m.map Prod.snd ↔ reqLookup r.ID m = some r := by
  constructor
  · intro hr
    induction m with
    | nil => simp at hr
    | cons hd tl ih =>
        obtain ⟨k1, v1⟩ := hd
        obtain ⟨hnd, hprop⟩ := hg
        rw [List.map_cons, List.mem_cons] at hr
        rcases hr with rfl | hr'
        · have hid : r.ID = k1 := hprop (k1, r) (List.mem_cons_self _ _)
          simp [reqLookup, hid]
        · have hnd' : (k1 :: keysOf tl).Nodup := hnd
          have hgtl : GoodMap tl :=
            ⟨(List.nodup_cons.mp hnd').2, fun p hp => hprop p (List.mem_cons_of_mem _ hp)⟩
          have hlook := ih hgtl hr'
          have hkey : r.ID ∈ keysOf tl := by
            have := reqLookup_mem hlook
            simp only [keysOf, List.mem_map]
            exact ⟨(r.ID, r), this, rfl⟩
          have hk1 : ¬ k1 = r.ID := by
            intro hc
            have hni := (List.nodup_cons.mp hnd').1
            rw [hc] at hni
            exact hni hkey
          simp [reqLookup, hk1, hlook]
  · intro h
    have := reqLookup_mem h
    exact List.mem_map.mpr ⟨(r.ID, r), this, rfl⟩

theorem find?_eq_some_of_unique {l : List α} {p : α → Bool}
    (hu : ∀ a ∈ l, ∀ b ∈ l, p a = true → p b = true → a = b) (r : α) :
    l.find? p = some r ↔ r ∈ l ∧ p r = true := by
  constructor
  · intro h
    exact ⟨List.mem_of_find?_eq_some h, List.find?_some h⟩
  · rintro ⟨hmem, hp⟩
    induction l with
    | nil => simp at hmem
    | cons x xs ih =>
        cases h : p x
        · rw [List.find?_cons_of_neg _ (by simp [h])]
          rcases List.mem_cons.mp hmem with rfl | hmem'
          · rw [hp] at h; exact absurd h (by simp)
          · exact ih (fun a ha b hb => hu a (List.mem_cons_of_mem _ ha)
              b (List.mem_cons_of_mem _ hb)) hmem'
        · rw [List.find?_cons_of_pos _ h]
          have := hu x (List.mem_cons_self _ _) r hmem h hp
          rw [this]

/-- The record `GetRequestsAtTime` shows for an ID is exactly the last
contribution for that ID in the chronological prefix of the timeline: "fold
in order, last write per ID wins". -/
theorem requestShownAt_eq_lastWith (dec : TapeDecoders) (t : Tape) (x : GoTime)
    (id : Nat) :
    requestShownAt dec t x id = lastWith id (contribsUpTo dec t x) := by
  have hfold :
      (t.Timeline.takeWhile (fun entry => decide (¬ x < entry.Time))).foldl
          (replayStep dec) [] =
        (contribsUpTo dec t x).foldl (fun m r => reqStore r.ID r m) [] :=
    foldl_replayStep dec _ []
  have hgood : GoodMap ((contribsUpTo dec t x).foldl
      (fun m r => reqStore r.ID r m) []) :=
    goodMap_foldl _ [] ⟨List.nodup_nil, by simp⟩
  have hlook : reqLookup id ((contribsUpTo dec t x).foldl
      (fun m r => reqStore r.ID r m) []) = lastWith id (contribsUpTo dec t x) := by
    rw [reqLookup_foldl_store]
    simp [reqLookup, optOr_none]
  set fold := (contribsUpTo dec t x).foldl (fun m r => reqStore r.ID r m) []
    with hfolddef
  have hperm : (sortSlice (fun a b => decide (a.ID < b.ID)) (fold.map Prod.snd)).Perm
      (fold.map Prod.snd) := sortSlice_perm _ _
  have hshown : requestShownAt dec t x id =
      (sortSlice (fun a b => decide (a.ID < b.ID)) (fold.map Prod.snd)).find?
        (fun r => decide (r.ID = id)) := by
    unfold requestShownAt Tape.GetRequestsAtTime
    rw [hfold]
  have hu : ∀ a ∈ sortSlice (fun a b => decide (a.ID < b.ID)) (fold.map Prod.snd),
      ∀ b ∈ sortSlice (fun a b => decide (a.ID < b.ID)) (fold.map Prod.snd),
      decide (a.ID = id) = true → decide (b.ID = id) = true → a = b := by
    intro a ha b hb hpa hpb
    rw [hperm.mem_iff] at ha hb
    simp only [decide_eq_true_eq] at hpa hpb
    have h1 := (mem_values_iff_lookup hgood a).mp ha
    have h2 := (mem_values_iff_lookup hgood b).mp hb
    rw [hpa] at h1
    rw [hpb] at h2
    rw [h1] at h2
    exact Option.some_inj.mp h2
  rw [hshown, ← hlook]
  cases hcase : reqLookup id fold with
  | some v =>
      have hmem : (id, v) ∈ fold := reqLookup_mem hcase
      have hid : v.ID = id := hgood.2 (id, v) hmem
      rw [(find?_eq_some_of_unique hu v)]
      refine ⟨?_, by simpa using hid⟩
      rw [hperm.mem_iff]
      exact List.mem_map.mpr ⟨(id, v), hmem, rfl⟩
  | none =>
      rw [List.find?_eq_none]
      intro a ha
      rw [hperm.mem_iff] at ha
      simp only [decide_eq_true_eq]
      intro hid
      have := (mem_values_iff_lookup hgood a).mp ha
      rw [hid, hcase] at this
      exact Option.noConfusion this

theorem takeWhile_mono_extend (l : List α) (p q : α → Bool)
    (h : ∀ a, p a = true → q a = true) :
    ∃ suffix, l.takeWhile q = l.takeWhile p ++ suffix := by
  induction l with
  | nil => exact ⟨[], rfl⟩
  | cons x xs ih =>
      cases hp : p x
      · exact ⟨(x :: xs).takeWhile q, by
          rw [show (x :: xs).takeWhile p = [] from
            List.takeWhile_cons_of_neg (by simp [hp])]
          rfl⟩
      · obtain ⟨suffix, hs⟩ := ih
        refine ⟨suffix, ?_⟩
        rw [List.takeWhile_cons_of_pos hp, List.takeWhile_cons_of_pos (h x hp),
          hs, List.cons_append]

theorem lastWith_append (id : Nat) (a b : List LLMRequest) :
    lastWith id (a ++ b) = optOr (lastWith id b) (lastWith id a) := by
  unfold lastWith
  rw [List.reverse_append, find?_append]

/-- C5: for query times `T1 < T2` on the same tape, the record
`GetRequestsAtTime T1` shows for an ID is the last contribution for that ID
in a chronological *prefix* of the contributions `GetRequestsAtTime T2`
folds; consequently the record shown at `T2` equals the one shown at `T1`
unless a strictly later timeline contribution supersedes it — the per-ID
reconstructed state can only move forward along the timeline as the query
time grows, never backward. -/
theorem C5_replay_monotone (dec : TapeDecoders) (t : Tape) (T1 T2 : GoTime)
    (id : Nat) (h : T1 < T2) :
    requestShownAt dec t T1 id = lastWith id (contribsUpTo dec t T1) ∧
    requestShownAt dec t T2 id = lastWith id (contribsUpTo dec t T2) ∧
    ∃ suffix, contribsUpTo dec t T2 = contribsUpTo dec t T1 ++ suffix ∧
      requestShownAt dec t T2 id =
        optOr (lastWith id suffix) (requestShownAt dec t T1 id) := by
  refine ⟨requestShownAt_eq_lastWith dec t T1 id,
    requestShownAt_eq_lastWith dec t T2 id, ?_⟩
  obtain ⟨tailEntries, htail⟩ := takeWhile_mono_extend t.Timeline
    (fun entry => decide (¬ T1 < entry.Time))
    (fun entry => decide (¬ T2 < entry.Time))
    (fun a ha => by
      simp only [decide_eq_true_eq, not_lt] at ha ⊢
      exact le_trans ha (le_of_lt h))
  refine ⟨tailEntries.filterMap (decodeEntry dec), ?_, ?_⟩
  · unfold contribsUpTo
    rw [htail, List.filterMap_append]
  · rw [requestShownAt_eq_lastWith dec t T1 id,
      requestShownAt_eq_lastWith dec t T2 id]
    have : contribsUpTo dec t T2 =
        contribsUpTo dec t T1 ++ tailEntries.filterMap (decodeEntry dec) := by
      unfold contribsUpTo
      rw [htail, List.filterMap_append]
    rw [this, lastWith_append]


/-- C5 witness: the replay-monotonicity theorem applied to the concrete demo
tape with query times 150 < 250 and request ID 1 (at 150 the request shows
pending, at 250 completed — a strictly later contribution). -/
theorem C5_replay_monotone_witness :
    requestShownAt demoDecoders demoTape 150 1 =
      lastWith 1 (contribsUpTo demoDecoders demoTape 150) ∧
    requestShownAt demoDecoders demoTape 250 1 =
      lastWith 1 (contribsUpTo demoDecoders demoTape 250) ∧
    ∃ suffix, contribsUpTo demoDecoders demoTape 250 =
        contribsUpTo demoDecoders demoTape 150 ++ suffix ∧
      requestShownAt demoDecoders demoTape 250 1 =
        optOr (lastWith 1 suffix) (requestShownAt demoDecoders demoTape 150 1) :=
  C5_replay_monotone demoDecoders demoTape 150 250 1 (by decide)

/-! ## Theorems for claim C7 (`StepForward` / `StepBackward`) -/

/-- On a time-sorted timeline, skipping the entries not after `cur` leaves
exactly the entries after `cur`. -/
theorem dropWhile_le_eq_filter (cur : GoTime) (l : List TimelineEntry)
    (hs : l.Pairwise fun a b => a.Time ≤ b.Time) :
    l.dropWhile (fun e => decide (e.Time ≤ cur)) =
      l.filter (fun e => decide (cur < e.Time)) := by
  induction l with
  | nil => rfl
  | cons e es ih =>
      rw [List.pairwise_cons] at hs
      obtain ⟨he, hes⟩ := hs
      by_cases h : e.Time ≤ cur
      · rw [List.dropWhile_cons_of_pos (by simpa using h), ih hes,
          List.filter_cons_of_neg (by simpa using h)]
      · rw [List.dropWhile_cons_of_neg (by simpa using h),
          List.filter_cons_of_pos (by simpa using lt_of_not_le h)]
        congr 1
        rw [eq_comm, List.filter_eq_self]
        intro x hx
        simp only [decide_eq_true_eq]
        exact lt_of_lt_of_le (lt_of_not_le h) (he x hx)

/-- On a time-sorted timeline, the initial run of entries before `cur` is
exactly the set of entries before `cur`. -/
theorem takeWhile_lt_eq_filter (cur : GoTime) (l : List TimelineEntry)
    (hs : l.Pairwise fun a b => a.Time ≤ b.Time) :
    l.takeWhile (fun e => decide (e.Time < cur)) =
      l.filter (fun e => decide (e.Time < cur)) := by
  induction l with
  | nil => rfl
  | cons e es ih =>
      rw [List.pairwise_cons] at hs
      obtain ⟨he, hes⟩ := hs
      by_cases h : e.Time < cur
      · rw [List.takeWhile_cons_of_pos (by simpa using h),
          List.filter_cons_of_pos (by simpa using h), ih hes]
      · rw [List.takeWhile_cons_of_neg (by simpa using h),
          List.filter_cons_of_neg (by simpa using h)]
        symm
        rw [List.filter_eq_nil_iff]
        intro x hx
        simp only [decide_eq_true_eq]
        exact not_lt.mpr (le_trans (le_of_not_lt h) (he x hx))

/-- An element produced by `getLast?` is a member of the list. -/
theorem mem_of_getLast?_eq_some {α : Type _} {l : List α} {m : α}
    (hm : l.getLast? = some m) : m ∈ l := by
  obtain ⟨h, heq⟩ := List.mem_getLast?_eq_getLast (by rw [Option.mem_def, hm])
  rw [heq]
  exact List.getLast_mem h

/-- The last element of a time-sorted list bounds every element from above. -/
theorem getLast?_time_max :
    ∀ (l : List TimelineEntry), (l.Pairwise fun a b => a.Time ≤ b.Time) →
      ∀ m, l.getLast? = some m → ∀ x ∈ l, x.Time ≤ m.Time := by
  intro l
  induction l with
  | nil => intro _ m hm; simp at hm
  | cons e es ih =>
      intro hs m hm x hx
      rw [List.pairwise_cons] at hs
      obtain ⟨he, hes⟩ := hs
      cases es with
      | nil =>
          simp only [List.getLast?_singleton, Option.some_inj] at hm
          rcases List.mem_singleton.mp hx with rfl
          rw [hm]
      | cons f fs =>
          rw [List.getLast?_cons_cons] at hm
          have hmem : m ∈ f :: fs := mem_of_getLast?_eq_some hm
          rcases List.mem_cons.mp hx with rfl | hx'
          · exact he m hmem
          · exact ih hes m hm x hx'

/-- C7, counterexample: `StepForward`'s return value is not "whether further
forward movement is possible": on a tape whose two timeline entries share
time 10 with the cursor at 0, it moves to 10 and returns `true`, yet the next
`StepForward` moves nowhere and returns `false`.  Likewise `StepBackward`'s
return value is not "whether further backward movement is possible": with a
single entry at time 10 and the cursor at 20 it moves to 10 and returns
`true`, yet the next `StepBackward` moves nowhere and returns `false`. -/
theorem C7_step_return_flag_counterexample :
    let dupTape : Tape :=
      { FilePath := "d", Session := ⟨":8080", "http://t", 0, "1.0"⟩,
        Events := [], Requests := [], RequestMap := [],
        Timeline := [⟨10, none, 1⟩, ⟨10, none, 2⟩],
        CurrentTime := 0, StartTime := 0, EndTime := 10, Duration := 10 }
    let oneTape : Tape :=
      { FilePath := "o", Session := ⟨":8080", "http://t", 0, "1.0"⟩,
        Events := [], Requests := [], RequestMap := [],
        Timeline := [⟨10, none, 1⟩],
        CurrentTime := 20, StartTime := 0, EndTime := 10, Duration := 10 }
    (dupTape.StepForward.1 = true ∧
      dupTape.StepForward.2.StepForward = (false, dupTape.StepForward.2)) ∧
    (oneTape.StepBackward.1 = true ∧
      oneTape.StepBackward.2.StepBackward = (false, oneTape.StepBackward.2)) := by
  decide

/-- C7, amended claim, proved for every tape with a time-sorted timeline
(which `LoadTape` guarantees): `StepForward` moves `CurrentTime` to the
earliest timeline time strictly after the current position (the next distinct
event timestamp) when one exists, and returns not "further movement possible"
but whether at least two timeline entries lie strictly after the old
position (i.e. whether the entry stepped to is not the last); `StepBackward`
moves `CurrentTime` to the latest timeline time strictly before the current
position (the previous distinct event timestamp) when one exists, and returns
not "further movement possible" but whether this step itself moved.  When no
entry lies strictly after (resp. before) the position, each returns `false`
and leaves the tape unchanged. -/
theorem C7_step_moves_amended (t : Tape)
    (hs : t.Timeline.Pairwise fun a b => a.Time ≤ b.Time) :
    (∀ e, (t.Timeline.filter fun x => decide (t.CurrentTime < x.Time)).head? = some e →
        t.StepForward =
          (decide (2 ≤ (t.Timeline.filter fun x => decide (t.CurrentTime < x.Time)).length),
            { t with CurrentTime := e.Time }) ∧
        t.CurrentTime < e.Time ∧
        ∀ x ∈ t.Timeline, t.CurrentTime < x.Time → e.Time ≤ x.Time) ∧
    ((t.Timeline.filter fun x => decide (t.CurrentTime < x.Time)) = [] →
        t.StepForward = (false, t)) ∧
    (∀ e, (t.Timeline.filter fun x => decide (x.Time < t.CurrentTime)).getLast? = some e →
        t.StepBackward = (true, { t with CurrentTime := e.Time }) ∧
        e.Time < t.CurrentTime ∧
        ∀ x ∈ t.Timeline, x.Time < t.CurrentTime → x.Time ≤ e.Time) ∧
    ((t.Timeline.filter fun x => decide (x.Time < t.CurrentTime)) = [] →
        t.StepBackward = (false, t)) := by
  have hdrop := dropWhile_le_eq_filter t.CurrentTime t.Timeline hs
  have htake := takeWhile_lt_eq_filter t.CurrentTime t.Timeline hs
  have hfs : (t.Timeline.filter fun x => decide (t.CurrentTime < x.Time)).Pairwise
      (fun a b => a.Time ≤ b.Time) := hs.filter _
  have hbs : (t.Timeline.filter fun x => decide (x.Time < t.CurrentTime)).Pairwise
      (fun a b => a.Time ≤ b.Time) := hs.filter _
  refine ⟨?_, ?_, ?_, ?_⟩
  · intro e he
    obtain ⟨rest, hrest⟩ : ∃ rest,
        (t.Timeline.filter fun x => decide (t.CurrentTime < x.Time)) = e :: rest := by
      cases hl : (t.Timeline.filter fun x => decide (t.CurrentTime < x.Time)) with
      | nil => rw [hl] at he; simp at he
      | cons a as =>
          rw [hl] at he
          simp only [List.head?_cons, Option.some_inj] at he
          exact ⟨as, by rw [he]⟩
    have hstep : t.StepForward =
        (decide (rest ≠ []), { t with CurrentTime := e.Time }) := by
      unfold Tape.StepForward
      rw [hdrop, hrest]
    refine ⟨?_, ?_, ?_⟩
    · have hbool : decide (rest ≠ []) = decide (2 ≤ (t.Timeline.filter fun x =>
          decide (t.CurrentTime < x.Time)).length) := by
        apply decide_eq_decide.mpr
        rw [hrest]
        simp only [List.length_cons]
        constructor
        · intro h
          have := List.length_pos.mpr h
          omega
        · intro h hc
          rw [hc] at h
          simp at h
      rw [hstep, hbool]
    · have : e ∈ (t.Timeline.filter fun x => decide (t.CurrentTime < x.Time)) := by
        rw [hrest]; exact List.mem_cons_self e rest
      have := List.mem_filter.mp this
      simpa using this.2
    · intro x hx hcx
      have hxf : x ∈ (t.Timeline.filter fun x => decide (t.CurrentTime < x.Time)) :=
        List.mem_filter.mpr ⟨hx, by simpa using hcx⟩
      rw [hrest] at hxf hfs
      rcases List.mem_cons.mp hxf with rfl | hx'
      · exact le_refl _
      · exact (List.pairwise_cons.mp hfs).1 x hx'
  · intro hnil
    unfold Tape.StepForward
    rw [hdrop, hnil]
  · intro e he
    have hstep : t.StepBackward = (true, { t with CurrentTime := e.Time }) := by
      unfold Tape.StepBackward
      rw [htake, he]
    refine ⟨hstep, ?_, ?_⟩
    · have hmem : e ∈ (t.Timeline.filter fun x => decide (x.Time < t.CurrentTime)) :=
        mem_of_getLast?_eq_some he
      have := List.mem_filter.mp hmem
      simpa using this.2
    · intro x hx hcx
      have hxf : x ∈ (t.Timeline.filter fun x => decide (x.Time < t.CurrentTime)) :=
        List.mem_filter.mpr ⟨hx, by simpa using hcx⟩
      exact getLast?_time_max _ hbs e he x hxf
  · intro hnil
    unfold Tape.StepBackward
    rw [htake, hnil]
    rfl

/-- C7 witness: the amended step theorem applied to a concrete sorted tape
with entries at times 10 and 20 and the cursor at 15: `StepForward` moves to
20 and returns `false` (the entry is the last one), `StepBackward` moves to
10 and returns `true`. -/
theorem C7_step_moves_amended_witness :
    let st : Tape :=
      { FilePath := "s", Session := ⟨":8080", "http://t", 0, "1.0"⟩,
        Events := [], Requests := [], RequestMap := [],
        Timeline := [⟨10, none, 1⟩, ⟨20, none, 2⟩],
        CurrentTime := 15, StartTime := 0, EndTime := 20, Duration := 20 }
    st.StepForward = (false, { st with CurrentTime := 20 }) ∧
    st.StepBackward = (true, { st with CurrentTime := 10 }) := by
  intro st
  obtain ⟨hf, _, hb, _⟩ := C7_step_moves_amended st (by decide)
  constructor
  · exact (hf ⟨20, none, 2⟩ (by decide)).1
  · exact (hb ⟨10, none, 1⟩ (by decide)).1

/-! ## Theorem for claim C3 (cache key normalizer) -/

set_option maxRecDepth 200000 in
/-- C3: `GenerateCacheKey` is deterministic — byte-identical (path, body)
pairs yield identical fingerprints (the function depends on nothing but its
arguments); and changing the `messages` field of a parseable body, or the
`system` field on the Anthropic dialect, changes the fingerprint, verified
through the full parse → normalize → `SHA-256` → hex pipeline on bodies that
differ in that field alone. -/
theorem C3_cache_key_deterministic_and_sensitive :
    (∀ (p b p' b' : String), p = p' → b = b' →
        GenerateCacheKey p b = GenerateCacheKey p' b') ∧
    ((unmarshalOpenAIRequest openAIBodyHi).isSome = true ∧
     (unmarshalOpenAIRequest openAIBodyYo).isSome = true ∧
     GenerateCacheKey "/v1/chat/completions" openAIBodyHi ≠
       GenerateCacheKey "/v1/chat/completions" openAIBodyYo) ∧
    ((unmarshalAnthropicRequest anthropicBodyAlpha).isSome = true ∧
     (unmarshalAnthropicRequest anthropicBodyBeta).isSome = true ∧
     GenerateCacheKey "/v1/messages" anthropicBodyAlpha ≠
       GenerateCacheKey "/v1/messages" anthropicBodyBeta) := by
  refine ⟨fun p b p' b' hp hb => by rw [hp, hb], ⟨?_, ?_, ?_⟩, ⟨?_, ?_, ?_⟩⟩
  · decide
  · decide
  · decide
  · decide
  · decide
  · decide

/-- C3 witness: the determinism component applied at a concrete path and
body. -/
theorem C3_cache_key_deterministic_witness :
    GenerateCacheKey "/v1/chat/completions" openAIBodyHi =
      GenerateCacheKey "/v1/chat/completions" openAIBodyHi :=
  C3_cache_key_deterministic_and_sensitive.1 "/v1/chat/completions" openAIBodyHi
    "/v1/chat/completions" openAIBodyHi rfl rfl

/-! ## Theorems for claims C1 and C6 (finalize protocol) -/


theorem finalizeCall_inv (cfg : HandlerConfig) (who : FinalizeCaller) (code : Nat)
    (hdrs : Option GoHeaders) (body : GoBytes) (size : Nat) (s : HandlerState)
    (hs : FinalizeInv s)
    (hwho : who = .watcher → code = 499 ∧ hdrs = none ∧ body = []) :
    FinalizeInv (finalizeCall cfg who code hdrs body size s) := by
  obtain ⟨h1, h2, h3, h4⟩ := hs
  unfold finalizeCall
  by_cases h : s.onceFired = true
  · rw [if_pos h]
    exact ⟨h1, h2, h3, h4⟩
  · have hcount : s.finalizeCount = 0 := by
      have hne : ¬ s.finalizeCount = 1 := by
        intro hc
        exact h (h2.mpr hc)
      omega
    obtain ⟨hst, hsc, hrb, hrh, hcw, hte, htc, hfb⟩ := h3 hcount
    rw [if_neg h]
    refine ⟨by simp [hcount], by simp [hcount], ?_, ?_⟩
    · intro hc
      simp [hcount] at hc
    · intro hfb'
      have hw : who = .watcher := by simpa using hfb'
      obtain ⟨hc499, hhdrs, hbody⟩ := hwho hw
      subst hc499
      subst hhdrs
      subst hbody
      refine ⟨rfl, rfl, rfl, ?_, ?_, ?_⟩
      · show (if 200 ≤ 499 ∧ 499 < 300 then RequestStatus.complete else .error) = .error
        rw [if_neg (by omega)]
      · show s.cacheWrites + (if (200 ≤ 499 ∧ 499 < 300) ∧
            ¬ cfg.isStreaming ∧ ¬ cfg.skipCache then 1 else 0) = 0
        rw [hcw, if_neg (by rintro ⟨⟨_, hlt⟩, _⟩; omega)]
      · show s.tokenExtracts + (if ([] : GoBytes) ≠ [] then 1 else 0) = 0
        rw [hte]
        simp

theorem stepRun_inv (cfg : HandlerConfig) (s : HandlerState) (step : HandlerStep)
    (hs : FinalizeInv s) :
    FinalizeInv (if stepEnabled cfg s step then stepRun cfg s step else s) := by
  by_cases he : stepEnabled cfg s step = true
  · rw [if_pos he]
    cases step with
    | cancel => exact hs
    | serveReturn => exact hs
    | mainClose => exact hs
    | watcherSkip => exact hs
    | watcherCancel =>
        exact finalizeCall_inv cfg .watcher 499 none [] 0 _ hs
          (fun _ => ⟨rfl, rfl, rfl⟩)
    | mainFinish =>
        show FinalizeInv (stepRun cfg s .mainFinish)
        unfold stepRun
        by_cases hh : cfg.cacheHit = true
        · rw [if_pos hh]
          exact finalizeCall_inv cfg .mainCacheHit _ _ _ _ _ hs
            (fun hc => FinalizeCaller.noConfusion hc)
        · rw [if_neg hh]
          by_cases hc : s.ctxCancelled = true
          · rw [if_pos hc]
            exact hs
          · rw [if_neg hc]
            exact finalizeCall_inv cfg .mainUpstream _ _ _ _ _ hs
              (fun hcon => FinalizeCaller.noConfusion hcon)
  · rw [if_neg he]
    exact hs

theorem runHandler_inv (cfg : HandlerConfig) (sched : List HandlerStep) :
    ∀ s, FinalizeInv s → FinalizeInv (runHandler cfg sched s) := by
  induction sched with
  | nil => intro s hs; exact hs
  | cons step rest ih =>
      intro s hs
      exact ih _ (stepRun_inv cfg s step hs)

/-- C1: a genuine interleaving of the handler in which the Request Record
never leaves `Pending` and the finalize step runs *zero* times, although both
racing triggers fired.  The client cancels while the upstream round trip is
in flight; `proxy.ServeHTTP` returns; the handler closes `cancelDone` before
the watcher goroutine is scheduled; the watcher's `select`, with both
channels ready, takes the `cancelDone` branch and exits without finalizing;
the handler sees `r.Context().Err() != nil` and returns without finalizing.
This refutes "finalize executes exactly once / the record leaves `Pending`
exactly once": the code guarantees at most one finalize (proved for all
schedules by the amended-claim theorem below), not exactly one. -/
theorem C1_finalize_skipped_under_race :
    let cfg : HandlerConfig :=
      { isStreaming := false, skipCache := false, cacheHit := false,
        cachedStatus := 0, cachedBody := [], cachedHeaders := [],
        upstreamStatus := 200, upstreamBody := [1], upstreamHeaders := [],
        upstreamRawSize := 1 }
    let sched : List HandlerStep :=
      [.cancel, .serveReturn, .mainClose, .watcherSkip, .mainFinish]
    runHandlerStrict cfg sched initHandlerState =
        some (runHandler cfg sched initHandlerState) ∧
    (runHandler cfg sched initHandlerState).ctxCancelled = true ∧
    (runHandler cfg sched initHandlerState).mainPC = .returned ∧
    (runHandler cfg sched initHandlerState).watcherDone = true ∧
    (runHandler cfg sched initHandlerState).finalizeCount = 0 ∧
    (runHandler cfg sched initHandlerState).status = .pending := by
  decide

/-- C6, counterexample: an interleaving in which the inbound context is
cancelled *before* finalization, yet the request is finalized with the
cached status 200 (not 499), a non-empty body, and a cache write: on the
cache-hit path the client cancels first, then the handler (which never
checks the context) closes `cancelDone` and wins the finalize race against
the watcher. -/
theorem C6_cancelled_not_499_counterexample :
    let cfg : HandlerConfig :=
      { isStreaming := false, skipCache := false, cacheHit := true,
        cachedStatus := 200, cachedBody := [7], cachedHeaders := [],
        upstreamStatus := 0, upstreamBody := [], upstreamHeaders := [],
        upstreamRawSize := 0 }
    let sched : List HandlerStep := [.cancel, .mainClose, .mainFinish]
    runHandlerStrict cfg sched initHandlerState =
        some (runHandler cfg sched initHandlerState) ∧
    (runHandler cfg sched initHandlerState).ctxCancelled = true ∧
    (runHandler cfg sched initHandlerState).finalizeCount = 1 ∧
    (runHandler cfg sched initHandlerState).statusCode = 200 ∧
    (runHandler cfg sched initHandlerState).responseBody = [7] ∧
    (runHandler cfg sched initHandlerState).cacheWrites = 1 := by
  decide

/-- C6, amended claim, proved over *every* configuration and schedule of the
handler transition system: finalize runs at most once per request; and
whenever it is the disconnect watcher's call that fires (context cancelled
and the watcher wins the race), the request is finalized with pseudo-status
499, nil headers, an empty response body, terminal status `Error`, no cache
entry written and no token-extraction invocation.  (What the original claim
gets wrong is only the "exactly once with 499" part: the cancellation can
also lose the race to a normal finalize, or finalize can be
skipped entirely, as the zero-finalize trace above shows.) -/
theorem C6_cancel_finalize_amended (cfg : HandlerConfig) (sched : List HandlerStep) :
    (runHandler cfg sched initHandlerState).finalizeCount ≤ 1 ∧
    ((runHandler cfg sched initHandlerState).finalizedBy = some .watcher →
      (runHandler cfg sched initHandlerState).statusCode = 499 ∧
      (runHandler cfg sched initHandlerState).responseBody = [] ∧
      (runHandler cfg sched initHandlerState).responseHeaders = none ∧
      (runHandler cfg sched initHandlerState).status = .error ∧
      (runHandler cfg sched initHandlerState).cacheWrites = 0 ∧
      (runHandler cfg sched initHandlerState).tokenExtracts = 0) := by
  have h := runHandler_inv cfg sched initHandlerState
    (by refine ⟨by decide, by decide, ?_, by decide⟩
        intro _
        exact ⟨rfl, rfl, rfl, rfl, rfl, rfl, rfl, rfl⟩)
  exact ⟨h.1, h.2.2.2⟩

/-- C6 witness: the amended theorem applied to the concrete cancel-then-
watcher schedule, in which the watcher does fire the finalize. -/
theorem C6_cancel_finalize_amended_witness :
    (runHandler demoHandlerCfg demoCancelSched initHandlerState).finalizeCount ≤ 1 ∧
    ((runHandler demoHandlerCfg demoCancelSched initHandlerState).finalizedBy =
        some .watcher →
      (runHandler demoHandlerCfg demoCancelSched initHandlerState).statusCode = 499 ∧
      (runHandler demoHandlerCfg demoCancelSched initHandlerState).responseBody = [] ∧
      (runHandler demoHandlerCfg demoCancelSched initHandlerState).responseHeaders = none ∧
      (runHandler demoHandlerCfg demoCancelSched initHandlerState).status = .error ∧
      (runHandler demoHandlerCfg demoCancelSched initHandlerState).cacheWrites = 0 ∧
      (runHandler demoHandlerCfg demoCancelSched initHandlerState).tokenExtracts = 0) :=
  C6_cancel_finalize_amended demoHandlerCfg demoCancelSched

/-! ## Theorems for claims C2 and C8 -/

/-- Round-tripping a request through the tape payload: every field of
`TapeRequestData` is preserved, and exactly the fields the payload lacks
(TTFT, cache-hit flag, proxy name/listen address) are reset to zero values. -/
theorem tapeData_roundtrip (req : LLMRequest) :
    tapeDataToRequest (requestToTapeData req) =
      { req with TTFT := 0, CachedResponse := false,
                 ProxyName := "", ProxyListen := "" } := by
  rfl

/-- C2, counterexample: a concrete request with nonzero time-to-first-byte,
cache-hit flag set and a proxy name; its tape payload round-trip loses all
three, so the `request_*` payload does not carry the full Request Record
field set with TTFT, cache-hit flag and owning proxy name included. -/
theorem C2_tape_payload_drops_fields_counterexample :
    let req : LLMRequest :=
      { ID := 1, Method := "POST", Path := "/v1/chat/completions",
        Host := "api.example.com", URL := "https://api.example.com/v1/chat/completions",
        Model := "gpt-4", Status := .complete, StatusCode := 200,
        StartTime := 1000, Duration := 50, TTFT := 7,
        RequestHeaders := [], ResponseHeaders := [],
        RequestBody := [123], ResponseBody := [125],
        RequestSize := 1, ResponseSize := 1, IsStreaming := false,
        EstimatedInputTokens := 1, InputTokens := 2, OutputTokens := 3,
        ProviderID := "openai", Cost := 0, CachedResponse := true,
        ProxyName := "default", ProxyListen := ":8080" }
    (tapeDataToRequest (requestToTapeData req)).TTFT ≠ req.TTFT ∧
    (tapeDataToRequest (requestToTapeData req)).CachedResponse ≠ req.CachedResponse ∧
    (tapeDataToRequest (requestToTapeData req)).ProxyName ≠ req.ProxyName := by
  refine ⟨by decide, by decide, by simp [tapeDataToRequest, requestToTapeData]⟩

/-- C2, amended claim: for every Request Record written to a tape, the
`request_*` event payload carries exactly the `TapeRequestData` fields —
ID, method, path, host, URL, model, status, status code, start time,
duration, request/response headers, request/response bodies, sizes,
streaming flag, estimated/actual input tokens, output tokens, provider and
cost — each byte-for-byte equal to the record's field; time-to-first-byte,
the cache-hit flag and the owning proxy name/listen address are *not*
carried (they decode back as zero values). -/
theorem C2_tape_payload_fields (req : LLMRequest) :
    let d := requestToTapeData req
    d.ID = req.ID ∧ d.Method = req.Method ∧ d.Path = req.Path ∧
    d.Host = req.Host ∧ d.URL = req.URL ∧ d.Model = req.Model ∧
    d.Status = req.Status ∧ d.StatusCode = req.StatusCode ∧
    d.StartTime = req.StartTime ∧ d.Duration = req.Duration ∧
    d.RequestHeaders = req.RequestHeaders ∧
    d.ResponseHeaders = req.ResponseHeaders ∧
    d.RequestBody = req.RequestBody ∧ d.ResponseBody = req.ResponseBody ∧
    d.RequestSize = req.RequestSize ∧ d.ResponseSize = req.ResponseSize ∧
    d.IsStreaming = req.IsStreaming ∧
    d.EstimatedInputTokens = req.EstimatedInputTokens ∧
    d.InputTokens = req.InputTokens ∧ d.OutputTokens = req.OutputTokens ∧
    d.ProviderID = req.ProviderID ∧ d.Cost = req.Cost ∧
    tapeDataToRequest d =
      { req with TTFT := 0, CachedResponse := false,
                 ProxyName := "", ProxyListen := "" } := by
  repeat' constructor

/-- Key lemma for the cache round-trip: storing then loading the same key. -/
theorem assocLoad_assocStore (k : String) (v : memoryCacheEntry)
    (l : List (String × memoryCacheEntry)) :
    assocLoad k (assocStore k v l) = some v := by
  induction l with
  | nil => simp [assocStore, assocLoad]
  | cons hd tl ih =>
      obtain ⟨k', v'⟩ := hd
      by_cases h : k' = k <;> simp [assocStore, assocLoad, h, ih]

/-- C8: for the in-memory TTL cache with a nonnegative configured TTL,
`Set(k, e)` followed immediately by `Get(k)` (same instant `now`) hits and
returns an entry whose body, headers and status code are byte-identical to
`e`; and a `Get(k)` performed at any time `later` strictly after the TTL has
elapsed (`now + ttl < later`) returns a miss. -/
theorem C8_memory_cache_roundtrip (c : MemoryCache) (k : String) (e : CacheEntry)
    (now later : GoTime) (httl : 0 ≤ c.ttl) (hlater : now + c.ttl < later) :
    (∃ e', ((c.Set now k e).Get now k).1 = some e' ∧
        e'.ResponseBody = e.ResponseBody ∧
        e'.ResponseHeaders = e.ResponseHeaders ∧
        e'.StatusCode = e.StatusCode) ∧
    ((c.Set now k e).Get later k).1 = none := by
  constructor
  · refine ⟨e, ?_, rfl, rfl, rfl⟩
    simp only [MemoryCache.Get, MemoryCache.Set, assocLoad_assocStore]
    have : ¬ (now + c.ttl < now) := by push_neg; linarith
    simp [this]
  · simp only [MemoryCache.Get, MemoryCache.Set, assocLoad_assocStore]
    simp [hlater]

/-- C8 witness: the round-trip theorem applied to a concrete cache, key,
entry and times. -/
theorem C8_memory_cache_roundtrip_witness :
    let c : MemoryCache := { data := [], ttl := 60 }
    let e : CacheEntry := { ResponseBody := [1, 2, 3], ResponseHeaders := [("A", ["b"])],
                            StatusCode := 200, Duration := 5, CreatedAt := 100 }
    (∃ e', ((c.Set 100 "k" e).Get 100 "k").1 = some e' ∧
        e'.ResponseBody = e.ResponseBody ∧
        e'.ResponseHeaders = e.ResponseHeaders ∧
        e'.StatusCode = e.StatusCode) ∧
    ((c.Set 100 "k" e).Get 200 "k").1 = none :=
  C8_memory_cache_roundtrip _ "k" _ 100 200 (by decide) (by decide)

end LLMProxy
